import Mathlib

/-!
A shallow embedding of the core of `src/main.py` (the EVDS data harvester):
the normalizer `normalize_df` and the store/merger `append_or_create_csv`.

Modelling choices, matching the pandas code it embeds:
* A dataframe (`Frame`) is a list of column names plus a list of rows; a cell
  is `none` (NaN/NaT) or a raw string or a parsed date.  Raw payloads hold
  string cells; `pd.to_datetime(..., dayfirst=True, errors="coerce")` is the
  elementwise `coerceCell` below, built on the concrete day-before-month
  parser `parseYmd`.
* The file system is abstracted to the contents of the one file the call
  touches: `Option Frame` (`none` = the file does not exist).  `df.to_csv`
  serializes every date cell to its ISO `YYYY-MM-DD` text (`toCsv`);
  `pd.read_csv(fname, parse_dates=["Tarih"], dayfirst=True)` re-parses the
  date column, leaving cells it cannot parse as text (`readCsv`).
* `sort_values` (pandas default kind quicksort) sorts by the date key with
  missing keys last, but promises nothing about the relative order of rows
  carrying equal dates (spec sections 4.2 and 9 flag this).  The update
  pipeline is therefore embedded with the sort as a parameter
  (`append_or_create_csv_with`), constrained only to `IsKeySort`: a by-key
  sorted permutation of the input.  Facts that depend on the tie order are
  proved for every such order, or under an explicit `TieStable` hypothesis
  (the stability the library does not promise); the executable
  instantiation `append_or_create_csv` runs one admissible order, the
  stable insertion sort `sortRows`.
* Column selection and alignment are by first matching label; the degenerate
  pandas behaviour on duplicate column labels is outside the model.
-/

/-- A calendar date as year, month, day. -/
structure Ymd where
  y : Nat
  m : Nat
  d : Nat
deriving DecidableEq, Repr

/-- Strict lexicographic order on dates, as a boolean. -/
def Ymd.ltb (a b : Ymd) : Bool :=
  a.y < b.y || (a.y == b.y && (a.m < b.m || (a.m == b.m && a.d < b.d)))

/-- Lexicographic order on dates, as a boolean. -/
def Ymd.leb (a b : Ymd) : Bool := Ymd.ltb a b || a == b

/-- Gregorian leap-year test. -/
def isLeap (y : Nat) : Bool := y % 4 == 0 && (y % 100 != 0 || y % 400 == 0)

/-- Number of days of month `m` in year `y`. -/
def daysInMonth (y m : Nat) : Nat :=
  if m == 2 then (if isLeap y then 29 else 28)
  else if m == 4 || m == 6 || m == 9 || m == 11 then 30
  else 31

/-- A date is valid when it denotes a real calendar day with a four-digit
year, the range `pd.Timestamp` values serialize into `YYYY-MM-DD` text. -/
def Ymd.validB (t : Ymd) : Bool :=
  decide (1 ≤ t.m ∧ t.m ≤ 12 ∧ 1 ≤ t.d ∧ t.d ≤ daysInMonth t.y t.m ∧ t.y ≤ 9999)

/-- The decimal digit character for `n % 10`-like arguments. -/
def digitChar (n : Nat) : Char :=
  match n with
  | 0 => '0' | 1 => '1' | 2 => '2' | 3 => '3' | 4 => '4'
  | 5 => '5' | 6 => '6' | 7 => '7' | 8 => '8' | _ => '9'

/-- The value of a decimal digit character. -/
def charDigit (c : Char) : Option Nat :=
  if c < '0' ∨ '9' < c then none else some (c.toNat - '0'.toNat)

/-- Accumulate the decimal value of a digit string. -/
def parseDigitsAux (acc : Nat) : List Char → Option Nat
  | [] => some acc
  | c :: cs =>
    match charDigit c with
    | some d => parseDigitsAux (acc * 10 + d) cs
    | none => none

/-- Parse a non-empty all-digit character list as a decimal number. -/
def parseDigits (cs : List Char) : Option Nat :=
  match cs with
  | [] => none
  | _ => parseDigitsAux 0 cs

/-- Split a character list on the dash separator. -/
def splitDash : List Char → List (List Char)
  | [] => [[]]
  | c :: cs =>
    if c == '-' then [] :: splitDash cs
    else
      match splitDash cs with
      | [] => [[c]]
      | g :: gs => (c :: g) :: gs

/-- The day-before-month date parser: the element-level model of
`pd.to_datetime(x, dayfirst=True, errors="coerce")` on this system's date
texts.  A three-field dash-separated string parses as `YYYY-MM-DD` when the
first field has four digits (the serialized form `to_csv` writes) and as
`DD-MM-YYYY` otherwise (the EVDS day-first form); anything else, or any
non-calendar combination, fails. -/
def parseYmd (s : String) : Option Ymd :=
  match splitDash s.data with
  | [a, b, c] =>
    if a.length == 4 then
      match parseDigits a, parseDigits b, parseDigits c with
      | some yv, some mv, some dv =>
        if b.length ≤ 2 ∧ c.length ≤ 2 ∧ Ymd.validB ⟨yv, mv, dv⟩ = true then
          some ⟨yv, mv, dv⟩
        else none
      | _, _, _ => none
    else
      match parseDigits a, parseDigits b, parseDigits c with
      | some dv, some mv, some yv =>
        if a.length ≤ 2 ∧ b.length ≤ 2 ∧ c.length == 4 ∧ Ymd.validB ⟨yv, mv, dv⟩ = true then
          some ⟨yv, mv, dv⟩
        else none
      | _, _, _ => none
  | _ => none

/-- Two-digit zero-padded decimal text. -/
def pad2 (n : Nat) : List Char := [digitChar (n / 10 % 10), digitChar (n % 10)]

/-- Four-digit zero-padded decimal text. -/
def pad4 (n : Nat) : List Char :=
  [digitChar (n / 1000 % 10), digitChar (n / 100 % 10), digitChar (n / 10 % 10),
    digitChar (n % 10)]

/-- ISO `YYYY-MM-DD` serialization of a date, the form `to_csv` writes for a
datetime column. -/
def dateToStr (t : Ymd) : String :=
  String.mk (pad4 t.y ++ '-' :: pad2 t.m ++ '-' :: pad2 t.d)

/-- Strict date order lifted to optional dates, missing (NaT) last. -/
def oLtb : Option Ymd → Option Ymd → Bool
  | some a, some b => Ymd.ltb a b
  | some _, none => true
  | none, _ => false

/-- Date order lifted to optional dates, missing (NaT) last. -/
def oLeb : Option Ymd → Option Ymd → Bool
  | _, none => true
  | none, some _ => false
  | some a, some b => Ymd.leb a b

/-- One dataframe value: a raw text cell or a parsed datetime cell. -/
inductive Cv where
  | str : String → Cv
  | date : Ymd → Cv
deriving DecidableEq, Repr

/-- A dataframe cell; `none` is pandas NaN/NaT. -/
abbrev Cell := Option Cv

/-- A cell that can sit in a CSV file or raw payload: not a datetime. -/
def Cell.isRaw : Cell → Bool
  | some (.date _) => false
  | _ => true

/-- The date key of a cell (the `sort_values` key after coercion). -/
def dk : Cell → Option Ymd
  | some (.date t) => some t
  | _ => none

/-- Strict sort-key comparison of two cells. -/
def cLTb (a b : Cell) : Bool := oLtb (dk a) (dk b)

/-- Sort-key comparison of two cells. -/
def cLEb (a b : Cell) : Bool := oLeb (dk a) (dk b)

/-- A dataframe row. -/
abbrev Row := List Cell

/-- The cell of a row at column index `i` (missing cells read as NaN). -/
def cellAt (i : Nat) (r : Row) : Cell := r.getD i none

/-- A dataframe: ordered column labels and rows of cells. -/
structure Frame where
  cols : List String
  rows : List Row
deriving DecidableEq, Repr

/-- `df.empty`: true when either axis has length zero. -/
def Frame.emptyB (f : Frame) : Bool := f.rows.isEmpty || f.cols.isEmpty

/-- `df.rename(columns={a: b})`: relabel every column named `a`. -/
def renameColumns (f : Frame) (a b : String) : Frame :=
  { f with cols := f.cols.map (fun c => if c == a then b else c) }

/-- The cell of a row under the first column with the given label. -/
def lookupCell : List String → Row → String → Cell
  | [], _, _ => none
  | _ :: _, [], _ => none
  | c :: cs, x :: xs, n => if c == n then x else lookupCell cs xs n

/-- Re-index a row from source labels to destination labels, filling absent
labels with NaN (`pd.concat` column alignment). -/
def alignRow (src dst : List String) (r : Row) : Row :=
  dst.map (fun n => lookupCell src r n)

/-- `pd.concat([a, b], ignore_index=True)`: stack rows under the union of the
column labels, first frame's label order first. -/
def concatF (a b : Frame) : Frame :=
  let cols := a.cols ++ b.cols.filter (fun c => !a.cols.contains c)
  { cols := cols
    rows := a.rows.map (alignRow a.cols cols) ++ b.rows.map (alignRow b.cols cols) }

/-- Index of the date column (the code addresses it by the label `Tarih`;
pandas raises if it is absent, a state the modelled call paths never reach,
so the default index is immaterial). -/
def tarihIdx (cols : List String) : Nat :=
  (cols.findIdx? (fun c => c == "Tarih")).getD 0

/-- Apply a function to the cell at index `i` of a row. -/
def updNth : Nat → (Cell → Cell) → Row → Row
  | _, _, [] => []
  | 0, g, x :: xs => g x :: xs
  | i + 1, g, x :: xs => x :: updNth i g xs

/-- Elementwise `pd.to_datetime(x, dayfirst=True, errors="coerce")`:
datetimes pass through, text parses or coerces to NaT. -/
def coerceCell (c : Cell) : Cell :=
  match c with
  | some (.date t) => some (.date t)
  | some (.str s) =>
    match parseYmd s with
    | some t => some (.date t)
    | none => none
  | none => none

/-- `df["Tarih"] = pd.to_datetime(df["Tarih"], dayfirst=True, errors="coerce")`. -/
def toDatetimeTarih (f : Frame) : Frame :=
  { f with rows := f.rows.map (updNth (tarihIdx f.cols) coerceCell) }

/-- `df.dropna(subset=["Tarih"])`: keep rows whose date cell is present. -/
def dropnaTarih (f : Frame) : Frame :=
  { f with rows := f.rows.filter (fun r => (cellAt (tarihIdx f.cols) r).isSome) }

/-- Insert a row into a key-sorted row list, after any row of equal key. -/
def insRow (i : Nat) (x : Row) : List Row → List Row
  | [] => [x]
  | y :: ys => if cLTb (cellAt i x) (cellAt i y) then x :: y :: ys else y :: insRow i x ys

/-- Stable insertion sort of rows by the date key of column `i`: one order
admissible under the `sort_values` contract, used to execute the model. -/
def sortRows (i : Nat) (l : List Row) : List Row :=
  l.foldl (fun acc x => insRow i x acc) []

/-- `df.sort_values("Tarih")` for an arbitrary sort order `srt`: the pandas
contract fixes only that the result is a by-date-key sorted permutation of
the rows, not which permutation, so the order is a parameter. -/
def sortValuesTarihWith (srt : Nat → List Row → List Row) (f : Frame) : Frame :=
  { f with rows := srt (tarihIdx f.cols) f.rows }

/-- `df.sort_values("Tarih")` as the model executes it, instantiated at the
stable order `sortRows`. -/
def sortValuesTarih (f : Frame) : Frame := sortValuesTarihWith sortRows f

/-- `df.drop_duplicates(subset=["Tarih"], keep="last")`: keep a row exactly
when no later row carries an equal date cell; kept rows stay in order. -/
def dedupRows (i : Nat) : List Row → List Row
  | [] => []
  | x :: xs =>
    if xs.any (fun y => cellAt i y == cellAt i x) then dedupRows i xs
    else x :: dedupRows i xs

/-- `df.drop_duplicates(subset=["Tarih"], keep="last")` on the date column
(`reset_index(drop=True)` is invisible in this model). -/
def dropDupTarihKeepLast (f : Frame) : Frame :=
  { f with rows := dedupRows (tarihIdx f.cols) f.rows }

/-- Serialization of one cell by `to_csv`: datetimes become ISO text. -/
def serializeCell (c : Cell) : Cell :=
  match c with
  | some (.date t) => some (.str (dateToStr t))
  | x => x

/-- `df.to_csv(fname, index=False, encoding="utf-8")`: the written file,
as the frame of serialized cells. -/
def toCsv (f : Frame) : Frame :=
  { f with rows := f.rows.map (fun r => r.map serializeCell) }

/-- One cell under `read_csv(..., parse_dates=["Tarih"], dayfirst=True)`:
date text parses, unparseable text stays text. -/
def readCellTarih (c : Cell) : Cell :=
  match c with
  | some (.str s) =>
    match parseYmd s with
    | some t => some (.date t)
    | none => some (.str s)
  | x => x

/-- `pd.read_csv(fname, parse_dates=["Tarih"], dayfirst=True)` on a stored
file. -/
def readCsv (f : Frame) : Frame :=
  { f with rows := f.rows.map (updNth (tarihIdx f.cols) readCellTarih) }

/-- `df[names]`: label selection, each name by first matching column. -/
def selectCols (f : Frame) (names : List String) : Frame :=
  { cols := names, rows := f.rows.map (alignRow f.cols names) }

/-- `code.replace(".", "_")`. -/
def replaceDotUnderscore (code : String) : String :=
  String.mk (code.data.map (fun c => if c == '.' then '_' else c))

/-- `clean_filename`: strip the characters unsafe in file names. -/
def clean_filename (name : String) : String :=
  String.mk (name.data.filter (fun c =>
    !(['\\', '/', '*', '?', ':', '"', '<', '>', '|'].contains c)))

/-- Date column resolution, `src/main.py` lines 70 to 71: accept the
fallback label `DATE` by renaming it to the primary label `Tarih`. -/
def dateResolved (df : Frame) : Frame :=
  if !df.cols.contains "Tarih" && df.cols.contains "DATE" then
    renameColumns df "DATE" "Tarih"
  else df

/-- `normalize_df(df, code)` from `src/main.py` lines 66 to 86. -/
def normalize_df (odf : Option Frame) (code : String) : Option Frame :=
  match odf with
  | none => none
  | some df0 =>
    if df0.emptyB then none
    else
      let df1 := dateResolved df0
      if !df1.cols.contains "Tarih" then none
      else
        let df2 := toDatetimeTarih df1
        let df3 := dropnaTarih df2
        let other := df3.cols.filter (fun c => c != "Tarih")
        match other with
        | [] => none
        | sc :: _ =>
          let newName := replaceDotUnderscore code
          let df4 := renameColumns df3 sc newName
          some (selectCols df4 ["Tarih", newName])

/-- What a call to `append_or_create_csv` reports. -/
inductive WriteOutcome where
  | noNewData : WriteOutcome
  | created : Nat → WriteOutcome
  | updated : Nat → WriteOutcome
deriving DecidableEq, Repr

/-- `append_or_create_csv` from `src/main.py` lines 92 to 119, over the
contents of the one file the path addresses (`none` = no file); directory
creation and path derivation sit outside the model.  The order the line-114
`sort_values` call uses is the parameter `srt`, since the library pins no
tie order among equal dates.  Returns the file contents after the call and
the reported outcome. -/
def append_or_create_csv_with (srt : Nat → List Row → List Row)
    (file : Option Frame) (df : Option Frame) : Option Frame × WriteOutcome :=
  match df with
  | none => (file, .noNewData)
  | some d =>
    if d.emptyB then (file, .noNewData)
    else
      match file with
      | none => (some (toCsv d), .created d.rows.length)
      | some f =>
        let old := readCsv f
        let combined := concatF old d
        let c1 := toDatetimeTarih combined
        let c2 := dropnaTarih c1
        let c3 := sortValuesTarihWith srt c2
        let c4 := dropDupTarihKeepLast c3
        (some (toCsv c4), .updated c4.rows.length)

/-- The call as the model executes it, instantiating the sort order at the
stable `sortRows`; statements whose truth does not depend on the tie order
are proved of this instantiation directly. -/
def append_or_create_csv (file : Option Frame) (df : Option Frame) :
    Option Frame × WriteOutcome :=
  append_or_create_csv_with sortRows file df

/-- A sequence of merges against one (initially absent) file, each call fed
one normalizer result, as the harvester loop performs them. -/
def runMerges (incs : List (Option Frame)) : Option Frame :=
  incs.foldl (fun s d => (append_or_create_csv s d).fst) none

/-- Shape of a row of a normalized record set: a parsed valid date and a raw
value cell. -/
def rowNormOk (r : Row) : Bool :=
  match r with
  | [some (.date t), v] => Ymd.validB t && v.isRaw
  | _ => false

/-- A well-formed normalizer output for series column `c`: columns
`Tarih, c` and every row a parsed date with a raw value. -/
def wfNormB (c : String) (f : Frame) : Bool :=
  f.cols == ["Tarih", c] && c != "Tarih" && f.rows.all rowNormOk

/-- Shape of a stored CSV row: two raw cells. -/
def rowFileOk (r : Row) : Bool :=
  match r with
  | [a, b] => a.isRaw && b.isRaw
  | _ => false

/-- A well-formed stored series file for value column `c`: header
`Tarih, c` and rows of raw cells (spec section 6's durable file contract). -/
def wfFileB (c : String) (f : Frame) : Bool :=
  f.cols == ["Tarih", c] && c != "Tarih" && f.rows.all rowFileOk

/-- The date a stored row carries, via the same day-first parse the code
applies when it reads the file back. -/
def fileKey (r : Row) : Option Ymd :=
  match cellAt 0 r with
  | some (.date t) => some t
  | some (.str s) => parseYmd s
  | none => none

/-- The TimeSeriesFile invariant: every row carries a parseable date and the
dates strictly increase from first to last row. -/
def InvFile (f : Frame) : Prop :=
  (∀ r ∈ f.rows, (fileKey r).isSome = true) ∧
    f.rows.Pairwise (fun a b => oLtb (fileKey a) (fileKey b) = true)

/-- An incoming record set whose rows strictly ascend by date. -/
def incStrict (f : Frame) : Prop :=
  f.rows.Pairwise (fun a b => cLTb (cellAt 0 a) (cellAt 0 b) = true)

instance (f : Frame) : Decidable (InvFile f) := by
  unfold InvFile
  infer_instance

instance (f : Frame) : Decidable (incStrict f) := by
  unfold incStrict
  infer_instance

/-- The incoming payload that first actually writes a file (the first one
that is neither absent nor empty) ascends strictly by date. -/
def firstEffectiveSorted : List (Option Frame) → Prop
  | [] => True
  | none :: rest => firstEffectiveSorted rest
  | some g :: rest =>
    if g.emptyB then firstEffectiveSorted rest else incStrict g

instance firstEffectiveSortedDec :
    (incs : List (Option Frame)) → Decidable (firstEffectiveSorted incs)
  | [] => .isTrue trivial
  | none :: rest => firstEffectiveSortedDec rest
  | some g :: rest =>
    have : Decidable (firstEffectiveSorted rest) := firstEffectiveSortedDec rest
    by unfold firstEffectiveSorted; infer_instance

example : parseYmd "2021-01-03" = some ⟨2021, 1, 3⟩ := by decide
example : parseYmd "03-01-2021" = some ⟨2021, 1, 3⟩ := by decide
example : parseYmd "31-02-2021" = none := by decide
example : parseYmd "notadate" = none := by decide
example : dateToStr ⟨2021, 1, 3⟩ = "2021-01-03" := by decide
example : replaceDotUnderscore "TP.DK.USD.A" = "TP_DK_USD_A" := by decide

/-! ### Order lemmas for the date sort key -/

theorem Ymd.ltb_irrefl (t : Ymd) : Ymd.ltb t t = false := by
  obtain ⟨x1, x2, x3⟩ := t
  simp [Ymd.ltb]

theorem Ymd.ltb_asymm {a b : Ymd} (h : Ymd.ltb a b = true) : Ymd.ltb b a = false := by
  obtain ⟨x1, x2, x3⟩ := a; obtain ⟨y1, y2, y3⟩ := b
  simp [Ymd.ltb] at h ⊢
  omega

theorem Ymd.leb_of_not_ltb {a b : Ymd} (h : Ymd.ltb a b = false) : Ymd.leb b a = true := by
  obtain ⟨x1, x2, x3⟩ := a; obtain ⟨y1, y2, y3⟩ := b
  simp [Ymd.ltb, Ymd.leb, Ymd.mk.injEq] at h ⊢
  omega

theorem Ymd.leb_trans {a b c : Ymd} (h1 : Ymd.leb a b = true) (h2 : Ymd.leb b c = true) :
    Ymd.leb a c = true := by
  obtain ⟨x1, x2, x3⟩ := a; obtain ⟨y1, y2, y3⟩ := b; obtain ⟨z1, z2, z3⟩ := c
  simp [Ymd.ltb, Ymd.leb, Ymd.mk.injEq] at h1 h2 ⊢
  omega

theorem Ymd.ltb_of_leb_of_ltb {a b c : Ymd} (h1 : Ymd.leb a b = true)
    (h2 : Ymd.ltb b c = true) : Ymd.ltb a c = true := by
  obtain ⟨x1, x2, x3⟩ := a; obtain ⟨y1, y2, y3⟩ := b; obtain ⟨z1, z2, z3⟩ := c
  simp [Ymd.ltb, Ymd.leb, Ymd.mk.injEq] at h1 h2 ⊢
  omega

theorem Ymd.ltb_of_ltb_of_leb {a b c : Ymd} (h1 : Ymd.ltb a b = true)
    (h2 : Ymd.leb b c = true) : Ymd.ltb a c = true := by
  obtain ⟨x1, x2, x3⟩ := a; obtain ⟨y1, y2, y3⟩ := b; obtain ⟨z1, z2, z3⟩ := c
  simp [Ymd.ltb, Ymd.leb, Ymd.mk.injEq] at h1 h2 ⊢
  omega

theorem Ymd.ltb_of_leb_of_ne {a b : Ymd} (h1 : Ymd.leb a b = true) (h2 : a ≠ b) :
    Ymd.ltb a b = true := by
  obtain ⟨x1, x2, x3⟩ := a; obtain ⟨y1, y2, y3⟩ := b
  simp [Ymd.ltb, Ymd.leb, Ymd.mk.injEq] at h1 h2 ⊢
  omega

theorem cLTb_eq_false_of_dk_eq {a b : Cell} (h : dk a = dk b) : cLTb a b = false := by
  unfold cLTb
  rw [h]
  cases dk b with
  | none => rfl
  | some t => simpa [oLtb] using Ymd.ltb_irrefl t

theorem cLTb_asymm {a b : Cell} (h : cLTb a b = true) : cLTb b a = false := by
  unfold cLTb at h ⊢
  cases ha : dk a <;> cases hb : dk b <;> rw [ha, hb] at h <;> simp_all [oLtb]
  exact Ymd.ltb_asymm h

theorem cLEb_of_not_lt {a b : Cell} (h : cLTb a b = false) : cLEb b a = true := by
  unfold cLTb at h
  unfold cLEb
  cases ha : dk a <;> cases hb : dk b <;> rw [ha, hb] at h <;> simp_all [oLtb, oLeb]
  exact Ymd.leb_of_not_ltb h

theorem cLEb_trans {a b c : Cell} (h1 : cLEb a b = true) (h2 : cLEb b c = true) :
    cLEb a c = true := by
  unfold cLEb at h1 h2 ⊢
  cases ha : dk a <;> cases hb : dk b <;> cases hc : dk c <;>
    rw [ha, hb] at h1 <;> rw [hb, hc] at h2 <;> simp_all [oLeb]
  exact Ymd.leb_trans h1 h2

theorem cLTb_of_le_of_lt {a b c : Cell} (h1 : cLEb a b = true) (h2 : cLTb b c = true) :
    cLTb a c = true := by
  unfold cLEb at h1
  unfold cLTb at h2 ⊢
  cases ha : dk a <;> cases hb : dk b <;> cases hc : dk c <;>
    rw [ha, hb] at h1 <;> rw [hb, hc] at h2 <;> simp_all [oLeb, oLtb]
  exact Ymd.ltb_of_leb_of_ltb h1 h2

theorem cLTb_of_lt_of_le {a b c : Cell} (h1 : cLTb a b = true) (h2 : cLEb b c = true) :
    cLTb a c = true := by
  unfold cLTb at h1 ⊢
  unfold cLEb at h2
  cases ha : dk a <;> cases hb : dk b <;> cases hc : dk c <;>
    rw [ha, hb] at h1 <;> rw [hb, hc] at h2 <;> simp_all [oLtb, oLeb]
  exact Ymd.ltb_of_ltb_of_leb h1 h2

theorem dk_ne_of_cLTb {a b : Cell} (h : cLTb a b = true) : dk a ≠ dk b := by
  intro he
  rw [cLTb_eq_false_of_dk_eq he] at h
  exact Bool.false_ne_true h

theorem cLTb_of_le_of_dk_ne {a b : Cell} (h1 : cLEb a b = true) (h2 : dk a ≠ dk b) :
    cLTb a b = true := by
  unfold cLEb at h1
  unfold cLTb
  cases ha : dk a <;> cases hb : dk b <;> rw [ha, hb] at h1 <;> simp_all [oLeb, oLtb]
  exact Ymd.ltb_of_leb_of_ne h1 (by intro he; exact h2 (by rw [he]))

/-! ### The sort-then-dedup pipeline, characterized by per-date filters -/

/-- Rows of `l` whose cell in column `i` equals `v` (in their list order). -/
def filterCell (i : Nat) (v : Cell) (l : List Row) : List Row :=
  l.filter (fun r => cellAt i r == v)

/-- Rows in non-decreasing date-key order on column `i`. -/
def SortedLE (i : Nat) (l : List Row) : Prop :=
  l.Pairwise (fun a b => cLEb (cellAt i a) (cellAt i b) = true)

/-- Rows in strictly increasing date-key order on column `i`. -/
def SortedLT (i : Nat) (l : List Row) : Prop :=
  l.Pairwise (fun a b => cLTb (cellAt i a) (cellAt i b) = true)

/-- Every row of `l` carries a datetime cell in column `i`. -/
def allDates (i : Nat) (l : List Row) : Prop :=
  ∀ r ∈ l, (dk (cellAt i r)).isSome = true


theorem filterCell_cons {i : Nat} {v : Cell} {x : Row} {l : List Row} :
    filterCell i v (x :: l) =
      if cellAt i x == v then x :: filterCell i v l else filterCell i v l := by
  unfold filterCell
  simp [List.filter_cons]

theorem filterCell_append {i : Nat} {v : Cell} {l1 l2 : List Row} :
    filterCell i v (l1 ++ l2) = filterCell i v l1 ++ filterCell i v l2 := by
  unfold filterCell
  simp [List.filter_append]

theorem filterCell_nil {i : Nat} {v : Cell} : filterCell i v [] = [] := rfl

theorem filterCell_eq_nil {i : Nat} {v : Cell} {l : List Row} :
    filterCell i v l = [] ↔ ∀ z ∈ l, ¬(cellAt i z = v) := by
  unfold filterCell
  rw [List.filter_eq_nil_iff]
  simp

theorem mem_insRow {i : Nat} {x z : Row} {l : List Row} :
    z ∈ insRow i x l ↔ z = x ∨ z ∈ l := by
  induction l with
  | nil => simp [insRow]
  | cons y ys ih =>
    unfold insRow
    by_cases h : cLTb (cellAt i x) (cellAt i y) = true
    · rw [h]
      simp only [if_true, List.mem_cons]
    · rw [Bool.not_eq_true] at h
      rw [h]
      simp only [Bool.false_eq_true, if_false, List.mem_cons, ih]
      tauto

theorem insRow_sorted {i : Nat} {x : Row} {l : List Row} (hs : SortedLE i l) :
    SortedLE i (insRow i x l) := by
  induction l with
  | nil =>
    unfold SortedLE insRow
    simp
  | cons y ys ih =>
    unfold SortedLE at hs ⊢
    rw [List.pairwise_cons] at hs
    unfold insRow
    by_cases h : cLTb (cellAt i x) (cellAt i y) = true
    · rw [h]
      simp only [if_true]
      rw [List.pairwise_cons]
      refine ⟨?_, ?_⟩
      · intro z hz
        rcases List.mem_cons.mp hz with hz | hz
        · subst hz
          exact cLEb_of_not_lt (cLTb_asymm h)
        · exact cLEb_trans (cLEb_of_not_lt (cLTb_asymm h)) (hs.1 z hz)
      · rw [List.pairwise_cons]
        exact hs
    · rw [Bool.not_eq_true] at h
      rw [h]
      simp only [Bool.false_eq_true, if_false]
      rw [List.pairwise_cons]
      refine ⟨?_, ih hs.2⟩
      intro z hz
      rcases mem_insRow.mp hz with hz | hz
      · subst hz
        exact cLEb_of_not_lt h
      · exact hs.1 z hz

theorem filterCell_insRow {i : Nat} {v : Cell} {x : Row} {l : List Row}
    (hs : SortedLE i l) :
    filterCell i v (insRow i x l) =
      filterCell i v l ++ (if cellAt i x == v then [x] else []) := by
  induction l with
  | nil =>
    rw [show insRow i x [] = [x] from rfl, filterCell_cons, filterCell_nil]
    by_cases h : cellAt i x == v
    · rw [h]
      simp
    · rw [Bool.not_eq_true] at h
      rw [h]
      simp
  | cons y ys ih =>
    unfold SortedLE at hs
    rw [List.pairwise_cons] at hs
    unfold insRow
    by_cases h : cLTb (cellAt i x) (cellAt i y) = true
    · rw [h]
      simp only [if_true]
      by_cases hxv : (cellAt i x == v) = true
      · have hxv' : cellAt i x = v := beq_iff_eq.mp hxv
        have hrest : filterCell i v (y :: ys) = [] := by
          rw [filterCell_eq_nil]
          intro z hz he
          have hlt : cLTb (cellAt i x) (cellAt i z) = true := by
            rcases List.mem_cons.mp hz with hz' | hz'
            · subst hz'
              exact h
            · exact cLTb_of_lt_of_le h (hs.1 z hz')
          exact dk_ne_of_cLTb hlt (by rw [he, hxv'])
        rw [filterCell_cons, hxv, hrest]
        simp
      · rw [Bool.not_eq_true] at hxv
        rw [filterCell_cons, hxv]
        simp
    · rw [Bool.not_eq_true] at h
      rw [h]
      simp only [Bool.false_eq_true, if_false]
      rw [filterCell_cons, filterCell_cons, ih hs.2]
      by_cases hyv : (cellAt i y == v) = true
      · rw [hyv]
        simp
      · rw [Bool.not_eq_true] at hyv
        rw [hyv]
        simp

theorem sortRows_aux_sorted {i : Nat} (l : List Row) (acc : List Row)
    (hs : SortedLE i acc) :
    SortedLE i (List.foldl (fun a x => insRow i x a) acc l) := by
  induction l generalizing acc with
  | nil => simpa using hs
  | cons x xs ih =>
    simp only [List.foldl_cons]
    exact ih _ (insRow_sorted hs)

theorem sortRows_sorted {i : Nat} (l : List Row) : SortedLE i (sortRows i l) := by
  unfold sortRows
  exact sortRows_aux_sorted l [] (by unfold SortedLE; simp)

theorem filterCell_sortRows_aux {i : Nat} {v : Cell} (l : List Row) (acc : List Row)
    (hs : SortedLE i acc) :
    filterCell i v (List.foldl (fun a x => insRow i x a) acc l) =
      filterCell i v acc ++ filterCell i v l := by
  induction l generalizing acc with
  | nil => simp [filterCell_nil]
  | cons x xs ih =>
    simp only [List.foldl_cons]
    rw [ih _ (insRow_sorted hs), filterCell_insRow hs, filterCell_cons]
    by_cases hxv : (cellAt i x == v) = true
    · rw [hxv]
      simp
    · rw [Bool.not_eq_true] at hxv
      rw [hxv]
      simp

theorem filterCell_sortRows {i : Nat} {v : Cell} (l : List Row) :
    filterCell i v (sortRows i l) = filterCell i v l := by
  unfold sortRows
  rw [filterCell_sortRows_aux l [] (by unfold SortedLE; simp)]
  simp [filterCell_nil]

theorem insRow_perm (i : Nat) (x : Row) (l : List Row) :
    (insRow i x l).Perm (x :: l) := by
  induction l with
  | nil => exact List.Perm.refl _
  | cons y ys ih =>
    unfold insRow
    by_cases h : cLTb (cellAt i x) (cellAt i y) = true
    · rw [h]
      simp only [if_true]
      exact List.Perm.refl _
    · rw [Bool.not_eq_true] at h
      rw [h]
      simp only [Bool.false_eq_true, if_false]
      exact (ih.cons y).trans (List.Perm.swap x y ys)

theorem sortRows_perm_aux {i : Nat} (l : List Row) :
    ∀ acc : List Row,
      (List.foldl (fun acc x => insRow i x acc) acc l).Perm (acc ++ l) := by
  induction l with
  | nil =>
    intro acc
    simp only [List.foldl_nil, List.append_nil]
    exact List.Perm.refl _
  | cons x xs ih =>
    intro acc
    rw [List.foldl_cons]
    refine ((ih (insRow i x acc)).trans ?_)
    refine ((insRow_perm i x acc).append_right xs).trans ?_
    exact List.perm_middle.symm

theorem sortRows_perm (i : Nat) (l : List Row) : (sortRows i l).Perm l := by
  unfold sortRows
  have h := sortRows_perm_aux (i := i) l []
  simpa using h

/-- A sort admissible as a model of `df.sort_values("Tarih")` on column
`i`: any permutation of the rows whose date keys come out non-decreasing.
The pandas contract (default kind quicksort) promises nothing more; the
relative order of rows with equal dates is unspecified. -/
def IsKeySort (srt : Nat → List Row → List Row) : Prop :=
  ∀ (i : Nat) (l : List Row), (srt i l).Perm l ∧ SortedLE i (srt i l)

/-- A sort whose ties keep input order: every per-cell filter of the output
equals that of the input.  This is the stability the pandas default sort
does not contractually promise (spec sections 4.2 and 9). -/
def TieStable (srt : Nat → List Row → List Row) : Prop :=
  ∀ (i : Nat) (v : Cell) (l : List Row), filterCell i v (srt i l) = filterCell i v l

theorem sortRows_isKeySort : IsKeySort sortRows :=
  fun i l => ⟨sortRows_perm i l, sortRows_sorted l⟩

theorem sortRows_tieStable : TieStable sortRows :=
  fun _ _ l => filterCell_sortRows l

/-- Another admissible by-date order: stable-sort the reversed input.  It
meets the same `sort_values` contract as `sortRows` but reverses the
relative order of rows carrying equal dates. -/
def swapSortRows (i : Nat) (l : List Row) : List Row := sortRows i l.reverse

theorem swapSortRows_isKeySort : IsKeySort swapSortRows :=
  fun i l =>
    ⟨(sortRows_perm i l.reverse).trans (List.reverse_perm l), sortRows_sorted _⟩

theorem mem_dedupRows {i : Nat} {l : List Row} {z : Row} (h : z ∈ dedupRows i l) :
    z ∈ l := by
  induction l with
  | nil => simp [dedupRows] at h
  | cons x xs ih =>
    unfold dedupRows at h
    by_cases hc : xs.any (fun y => cellAt i y == cellAt i x) = true
    · rw [hc] at h
      simp only [if_true] at h
      exact List.mem_cons_of_mem x (ih h)
    · rw [Bool.not_eq_true] at hc
      rw [hc] at h
      simp only [Bool.false_eq_true, if_false] at h
      rcases List.mem_cons.mp h with h' | h'
      · exact h' ▸ List.mem_cons_self x xs
      · exact List.mem_cons_of_mem x (ih h')

theorem filterCell_dedupRows {i : Nat} {v : Cell} (l : List Row) :
    filterCell i v (dedupRows i l) = (filterCell i v l).getLast?.toList := by
  induction l with
  | nil => simp [dedupRows, filterCell_nil]
  | cons x xs ih =>
    unfold dedupRows
    by_cases hc : xs.any (fun y => cellAt i y == cellAt i x) = true
    · rw [hc]
      simp only [if_true]
      rw [ih, filterCell_cons]
      by_cases hxv : (cellAt i x == v) = true
      · have hxv' : cellAt i x = v := beq_iff_eq.mp hxv
        rw [hxv]
        simp only [if_true]
        have hne : filterCell i v xs ≠ [] := by
          rw [Ne, filterCell_eq_nil]
          push_neg
          rcases List.any_eq_true.mp hc with ⟨y, hy, he⟩
          exact ⟨y, hy, by rw [beq_iff_eq.mp he, hxv']⟩
        obtain ⟨f, fs, hf⟩ : ∃ f fs, filterCell i v xs = f :: fs := by
          cases hfx : filterCell i v xs with
          | nil => exact absurd hfx hne
          | cons f fs => exact ⟨f, fs, rfl⟩
        rw [hf]
        simp [List.getLast?_cons_cons]
      · rw [Bool.not_eq_true] at hxv
        rw [hxv]
        simp
    · rw [Bool.not_eq_true] at hc
      rw [hc]
      simp only [Bool.false_eq_true, if_false]
      rw [filterCell_cons, filterCell_cons, ih]
      by_cases hxv : (cellAt i x == v) = true
      · have hxv' : cellAt i x = v := beq_iff_eq.mp hxv
        rw [hxv]
        simp only [if_true]
        have hnil : filterCell i v xs = [] := by
          rw [filterCell_eq_nil]
          intro z hz he
          have : xs.any (fun y => cellAt i y == cellAt i x) = true :=
            List.any_eq_true.mpr ⟨z, hz, beq_iff_eq.mpr (by rw [he, hxv'])⟩
          rw [hc] at this
          exact Bool.false_ne_true this
        rw [hnil]
        simp
      · rw [Bool.not_eq_true] at hxv
        rw [hxv]
        simp

theorem dedupRows_sortedLT {i : Nat} {l : List Row} (hs : SortedLE i l)
    (hd : allDates i l) : SortedLT i (dedupRows i l) := by
  induction l with
  | nil => simp [dedupRows, SortedLT]
  | cons x xs ih =>
    unfold SortedLE at hs
    rw [List.pairwise_cons] at hs
    have hd' : allDates i xs := fun r hr => hd r (List.mem_cons_of_mem x hr)
    unfold dedupRows
    by_cases hc : xs.any (fun y => cellAt i y == cellAt i x) = true
    · rw [hc]
      simp only [if_true]
      exact ih hs.2 hd'
    · rw [Bool.not_eq_true] at hc
      rw [hc]
      simp only [Bool.false_eq_true, if_false]
      unfold SortedLT
      rw [List.pairwise_cons]
      refine ⟨?_, ih hs.2 hd'⟩
      intro z hz
      have hzx : z ∈ xs := mem_dedupRows hz
      have hle : cLEb (cellAt i x) (cellAt i z) = true := hs.1 z hzx
      have hne : dk (cellAt i x) ≠ dk (cellAt i z) := by
        intro he
        obtain ⟨tx, htx⟩ := Option.isSome_iff_exists.mp (hd x (List.mem_cons_self x xs))
        obtain ⟨tz, htz⟩ := Option.isSome_iff_exists.mp (hd z (List.mem_cons_of_mem x hzx))
        have hcx : cellAt i x = some (.date tx) := by
          cases hcc : cellAt i x with
          | none => rw [hcc] at htx; exact absurd htx (by simp [dk])
          | some cv =>
            cases cv with
            | str s => rw [hcc] at htx; exact absurd htx (by simp [dk])
            | date t => rw [hcc] at htx; simp [dk] at htx; rw [htx]
        have hcz : cellAt i z = some (.date tz) := by
          cases hcc : cellAt i z with
          | none => rw [hcc] at htz; exact absurd htz (by simp [dk])
          | some cv =>
            cases cv with
            | str s => rw [hcc] at htz; exact absurd htz (by simp [dk])
            | date t => rw [hcc] at htz; simp [dk] at htz; rw [htz]
        have : cellAt i z = cellAt i x := by
          rw [hcx, hcz] at he ⊢
          simp [dk] at he
          rw [he]
        have : xs.any (fun y => cellAt i y == cellAt i x) = true :=
          List.any_eq_true.mpr ⟨z, hzx, beq_iff_eq.mpr this⟩
        rw [hc] at this
        exact Bool.false_ne_true this
      exact cLTb_of_le_of_dk_ne hle hne

theorem head_filterCell {i : Nat} {a : Row} {as : List Row}
    (hs : SortedLT i (a :: as)) : filterCell i (cellAt i a) (a :: as) = [a] := by
  unfold SortedLT at hs
  rw [List.pairwise_cons] at hs
  rw [filterCell_cons, beq_self_eq_true]
  simp only [if_true, List.cons.injEq, true_and]
  rw [filterCell_eq_nil]
  intro z hz he
  exact dk_ne_of_cLTb (hs.1 z hz) (congrArg dk he.symm)

theorem getLast?_mem_list {α : Type} {l : List α} {a : α} (h : l.getLast? = some a) :
    a ∈ l := by
  induction l with
  | nil => simp at h
  | cons x xs ih =>
    cases xs with
    | nil =>
      simp [List.getLast?] at h
      simp [h]
    | cons y ys =>
      rw [List.getLast?_cons_cons] at h
      exact List.mem_cons_of_mem x (ih h)

theorem sortedLT_ext {i : Nat} : ∀ {l1 l2 : List Row}, SortedLT i l1 → SortedLT i l2 →
    (∀ v, filterCell i v l1 = filterCell i v l2) → l1 = l2 := by
  intro l1
  induction l1 with
  | nil =>
    intro l2 _ hs2 h
    cases l2 with
    | nil => rfl
    | cons b bs =>
      have := h (cellAt i b)
      rw [head_filterCell hs2, filterCell_nil] at this
      exact absurd this (by simp)
  | cons a as ih =>
    intro l2 hs1 hs2 h
    cases l2 with
    | nil =>
      have := h (cellAt i a)
      rw [head_filterCell hs1, filterCell_nil] at this
      exact absurd this (by simp)
    | cons b bs =>
      have hab : a = b := by
        have ha2 : a ∈ b :: bs := by
          have := h (cellAt i a)
          rw [head_filterCell hs1] at this
          have : a ∈ filterCell i (cellAt i a) (b :: bs) := by
            rw [← this]
            exact List.mem_singleton_self a
          exact List.mem_of_mem_filter this
        have hb1 : b ∈ a :: as := by
          have := h (cellAt i b)
          rw [head_filterCell hs2] at this
          have : b ∈ filterCell i (cellAt i b) (a :: as) := by
            rw [this]
            exact List.mem_singleton_self b
          exact List.mem_of_mem_filter this
        have hs1' := hs1
        have hs2' := hs2
        unfold SortedLT at hs1' hs2'
        rw [List.pairwise_cons] at hs1' hs2'
        rcases List.mem_cons.mp ha2 with he | hmem
        · exact he
        · exfalso
          have hba : cLTb (cellAt i b) (cellAt i a) = true := hs2'.1 a hmem
          rcases List.mem_cons.mp hb1 with he' | hmem'
          · rw [he'] at hba
            rw [cLTb_eq_false_of_dk_eq rfl] at hba
            exact Bool.false_ne_true hba
          · have hab' : cLTb (cellAt i a) (cellAt i b) = true := hs1'.1 b hmem'
            rw [cLTb_asymm hab'] at hba
            exact Bool.false_ne_true hba
      subst hab
      have htails : ∀ v, filterCell i v as = filterCell i v bs := by
        intro v
        have := h v
        rw [filterCell_cons, filterCell_cons] at this
        by_cases hav : (cellAt i a == v) = true
        · rw [hav] at this
          simp only [if_true] at this
          exact List.cons.injEq .. |>.mp this |>.2
        · rw [Bool.not_eq_true] at hav
          rw [hav] at this
          simpa using this
      unfold SortedLT at hs1 hs2
      rw [List.pairwise_cons] at hs1 hs2
      rw [ih hs1.2 hs2.2 htails]

/-- The composite `sort_values("Tarih")` then
`drop_duplicates(subset=["Tarih"], keep="last")` on a row list. -/
def canonRows (i : Nat) (l : List Row) : List Row := dedupRows i (sortRows i l)

theorem mem_sortRows_aux {i : Nat} (l : List Row) (acc : List Row) {z : Row} :
    z ∈ List.foldl (fun a x => insRow i x a) acc l ↔ z ∈ acc ∨ z ∈ l := by
  induction l generalizing acc with
  | nil => simp
  | cons x xs ih =>
    simp only [List.foldl_cons]
    rw [ih, mem_insRow]
    simp
    tauto

theorem mem_sortRows {i : Nat} {l : List Row} {z : Row} :
    z ∈ sortRows i l ↔ z ∈ l := by
  unfold sortRows
  rw [mem_sortRows_aux]
  simp

theorem allDates_sortRows {i : Nat} {l : List Row} (h : allDates i l) :
    allDates i (sortRows i l) := fun r hr => h r (mem_sortRows.mp hr)

theorem canonRows_sortedLT {i : Nat} {l : List Row} (hd : allDates i l) :
    SortedLT i (canonRows i l) :=
  dedupRows_sortedLT (sortRows_sorted l) (allDates_sortRows hd)

theorem mem_canonRows {i : Nat} {l : List Row} {z : Row} (h : z ∈ canonRows i l) :
    z ∈ l := mem_sortRows.mp (mem_dedupRows h)

theorem filterCell_of_sortedLT {i : Nat} {v : Cell} {l : List Row}
    (hs : SortedLT i l) : filterCell i v l = [] ∨ ∃ z, filterCell i v l = [z] := by
  induction l with
  | nil => exact Or.inl rfl
  | cons a as ih =>
    have hs' := hs
    unfold SortedLT at hs'
    rw [List.pairwise_cons] at hs'
    rw [filterCell_cons]
    by_cases hav : (cellAt i a == v) = true
    · refine Or.inr ⟨a, ?_⟩
      rw [hav]
      simp only [if_true, List.cons.injEq, true_and]
      rw [filterCell_eq_nil]
      intro z hz he
      exact dk_ne_of_cLTb (hs'.1 z hz)
        (congrArg dk ((beq_iff_eq.mp hav).trans he.symm))
    · rw [Bool.not_eq_true] at hav
      rw [hav]
      simp only [Bool.false_eq_true, if_false]
      exact ih hs'.2

theorem lastCell_append_right {i : Nat} {v : Cell} {l b : List Row}
    (hb : filterCell i v b ≠ []) :
    (filterCell i v (l ++ b)).getLast? = (filterCell i v b).getLast? := by
  rw [filterCell_append]
  exact List.getLast?_append_of_ne_nil _ hb

theorem getLast?_all_eq {α : Type} {l : List α} {a : α}
    (h : ∀ x ∈ l, x = a) (hne : l ≠ []) : l.getLast? = some a := by
  induction l with
  | nil => exact absurd rfl hne
  | cons x xs ih =>
    cases xs with
    | nil => simp [List.getLast?, h x (List.mem_cons_self x [])]
    | cons y ys =>
      rw [List.getLast?_cons_cons]
      exact ih (fun z hz => h z (List.mem_cons_of_mem x hz)) (by simp)

theorem getLast?_some_of_ne_nil {α : Type} {l : List α} (h : l ≠ []) :
    ∃ a, l.getLast? = some a := by
  induction l with
  | nil => exact absurd rfl h
  | cons x xs ih =>
    cases xs with
    | nil => exact ⟨x, by simp [List.getLast?]⟩
    | cons y ys =>
      obtain ⟨a, ha⟩ := ih (by simp)
      exact ⟨a, by rw [List.getLast?_cons_cons]; exact ha⟩

theorem mem_filterCell {i : Nat} {v : Cell} {z : Row} {l : List Row} :
    z ∈ filterCell i v l ↔ z ∈ l ∧ cellAt i z = v := by
  unfold filterCell
  rw [List.mem_filter]
  simp

theorem mem_unique_of_sortedLT {i : Nat} : ∀ {l : List Row}, SortedLT i l →
    ∀ {r1 r2 : Row}, r1 ∈ l → r2 ∈ l → cellAt i r1 = cellAt i r2 → r1 = r2 := by
  intro l
  induction l with
  | nil =>
    intro _ r1 r2 h1 _ _
    simp at h1
  | cons x xs ih =>
    intro hs r1 r2 h1 h2 he
    unfold SortedLT at hs
    rw [List.pairwise_cons] at hs
    rcases List.mem_cons.mp h1 with e1 | m1
    · rcases List.mem_cons.mp h2 with e2 | m2
      · rw [e1, e2]
      · exfalso
        subst e1
        exact dk_ne_of_cLTb (hs.1 r2 m2) (congrArg dk he)
    · rcases List.mem_cons.mp h2 with e2 | m2
      · exfalso
        subst e2
        exact dk_ne_of_cLTb (hs.1 r1 m1) (congrArg dk he.symm)
      · exact ih hs.2 m1 m2 he

/-- The tie-order-independent core of idempotence: re-merging rows `B` on
top of a strictly date-sorted row list `M` that covers every date of `B`
and agrees with `B` wherever dates coincide gives `M` back, under any
admissible by-date sort order. -/
theorem dedup_srt_append_eq_self {srt : Nat → List Row → List Row}
    (hsrt : IsKeySort srt) {M B : List Row}
    (hMd : allDates 0 M) (hBd : allDates 0 B) (hMs : SortedLT 0 M)
    (hBM : ∀ v : Cell, filterCell 0 v B ≠ [] → filterCell 0 v M ≠ [])
    (hconf : ∀ r1 ∈ M, ∀ r2 ∈ B, cellAt 0 r1 = cellAt 0 r2 → r1 = r2) :
    dedupRows 0 (srt 0 (M ++ B)) = M := by
  obtain ⟨hperm, hsorted⟩ := hsrt 0 (M ++ B)
  have hABd : allDates 0 (M ++ B) := by
    intro r hr
    rcases List.mem_append.mp hr with h | h
    · exact hMd r h
    · exact hBd r h
  have hd2 : allDates 0 (srt 0 (M ++ B)) := fun r hr => hABd r (hperm.subset hr)
  refine sortedLT_ext (dedupRows_sortedLT hsorted hd2) hMs (fun v => ?_)
  rw [filterCell_dedupRows]
  rcases filterCell_of_sortedLT (v := v) hMs with hM0 | ⟨rtie, hM1⟩
  · have hB0 : filterCell 0 v B = [] := by
      by_contra hBne
      exact (hBM v hBne) hM0
    have hS0 : filterCell 0 v (srt 0 (M ++ B)) = [] := by
      rw [filterCell_eq_nil]
      intro z hz hcell
      rcases List.mem_append.mp (hperm.subset hz) with hm | hm
      · exact filterCell_eq_nil.mp hM0 z hm hcell
      · exact filterCell_eq_nil.mp hB0 z hm hcell
    rw [hS0, hM0]
    rfl
  · have hrmem : rtie ∈ filterCell 0 v M := by
      rw [hM1]
      exact List.mem_singleton_self rtie
    have hrM : rtie ∈ M := (mem_filterCell.mp hrmem).1
    have hrv : cellAt 0 rtie = v := (mem_filterCell.mp hrmem).2
    have hall : ∀ x ∈ filterCell 0 v (srt 0 (M ++ B)), x = rtie := by
      intro x hx
      obtain ⟨hxm, hxv⟩ := mem_filterCell.mp hx
      rcases List.mem_append.mp (hperm.subset hxm) with hm | hm
      · have hxf : x ∈ filterCell 0 v M := mem_filterCell.mpr ⟨hm, hxv⟩
        rw [hM1] at hxf
        simpa using hxf
      · exact (hconf rtie hrM x hm (by rw [hrv, hxv])).symm
    have hne2 : filterCell 0 v (srt 0 (M ++ B)) ≠ [] := by
      have hmem2 : rtie ∈ filterCell 0 v (srt 0 (M ++ B)) :=
        mem_filterCell.mpr
          ⟨hperm.mem_iff.mpr (List.mem_append.mpr (Or.inl hrM)), hrv⟩
      intro hnil
      rw [hnil] at hmem2
      simp at hmem2
    rw [getLast?_all_eq hall hne2, hM1]
    rfl

/-! ### Round trip between date serialization and the day-first parser -/

theorem charDigit_digitChar {n : Nat} (h : n < 10) : charDigit (digitChar n) = some n := by
  interval_cases n <;> rfl

theorem digitChar_ne_dash (n : Nat) : (digitChar n == '-') = false := by
  unfold digitChar
  split <;> rfl

theorem pad4_no_dash (n : Nat) : ∀ c ∈ pad4 n, (c == '-') = false := by
  intro c hc
  unfold pad4 at hc
  rcases List.mem_cons.mp hc with h | hc
  · exact h ▸ digitChar_ne_dash _
  rcases List.mem_cons.mp hc with h | hc
  · exact h ▸ digitChar_ne_dash _
  rcases List.mem_cons.mp hc with h | hc
  · exact h ▸ digitChar_ne_dash _
  rcases List.mem_cons.mp hc with h | hc
  · exact h ▸ digitChar_ne_dash _
  · simp at hc

theorem pad2_no_dash (n : Nat) : ∀ c ∈ pad2 n, (c == '-') = false := by
  intro c hc
  unfold pad2 at hc
  rcases List.mem_cons.mp hc with h | hc
  · exact h ▸ digitChar_ne_dash _
  rcases List.mem_cons.mp hc with h | hc
  · exact h ▸ digitChar_ne_dash _
  · simp at hc

theorem splitDash_no_dash {cs : List Char} (h : ∀ c ∈ cs, (c == '-') = false) :
    splitDash cs = [cs] := by
  induction cs with
  | nil => rfl
  | cons c cs ih =>
    unfold splitDash
    rw [h c (List.mem_cons_self c cs)]
    simp only [Bool.false_eq_true, if_false]
    rw [ih (fun x hx => h x (List.mem_cons_of_mem c hx))]

theorem splitDash_sep {xs : List Char} (ys : List Char)
    (h : ∀ c ∈ xs, (c == '-') = false) :
    splitDash (xs ++ '-' :: ys) = xs :: splitDash ys := by
  induction xs with
  | nil =>
    rw [List.nil_append]
    conv_lhs => rw [splitDash]
    simp
  | cons c cs ih =>
    rw [List.cons_append]
    conv_lhs => rw [splitDash]
    rw [h c (List.mem_cons_self c cs)]
    simp only [Bool.false_eq_true, if_false]
    rw [ih (fun x hx => h x (List.mem_cons_of_mem c hx))]

theorem parseDigits_pad4 {y : Nat} (h : y ≤ 9999) : parseDigits (pad4 y) = some y := by
  have e1 := charDigit_digitChar (n := y / 1000 % 10) (Nat.mod_lt _ (by decide))
  have e2 := charDigit_digitChar (n := y / 100 % 10) (Nat.mod_lt _ (by decide))
  have e3 := charDigit_digitChar (n := y / 10 % 10) (Nat.mod_lt _ (by decide))
  have e4 := charDigit_digitChar (n := y % 10) (Nat.mod_lt _ (by decide))
  show parseDigitsAux 0 (pad4 y) = some y
  unfold pad4
  simp only [parseDigitsAux, e1, e2, e3, e4, Option.some.injEq]
  omega

theorem parseDigits_pad2 {m : Nat} (h : m ≤ 99) : parseDigits (pad2 m) = some m := by
  have e1 := charDigit_digitChar (n := m / 10 % 10) (Nat.mod_lt _ (by decide))
  have e2 := charDigit_digitChar (n := m % 10) (Nat.mod_lt _ (by decide))
  show parseDigitsAux 0 (pad2 m) = some m
  unfold pad2
  simp only [parseDigitsAux, e1, e2, Option.some.injEq]
  omega

theorem validB_bounds {t : Ymd} (h : Ymd.validB t = true) :
    1 ≤ t.m ∧ t.m ≤ 12 ∧ 1 ≤ t.d ∧ t.d ≤ 31 ∧ t.y ≤ 9999 := by
  unfold Ymd.validB at h
  rw [decide_eq_true_eq] at h
  have hdim : daysInMonth t.y t.m ≤ 31 := by
    unfold daysInMonth
    split
    · split <;> omega
    · split <;> omega
  omega

theorem parseYmd_dateToStr {t : Ymd} (h : Ymd.validB t = true) :
    parseYmd (dateToStr t) = some t := by
  obtain ⟨hm1, hm2, hd1, hd2, hy⟩ := validB_bounds h
  unfold parseYmd dateToStr
  show (match splitDash (pad4 t.y ++ '-' :: pad2 t.m ++ '-' :: pad2 t.d) with
    | [a, b, c] => _ | _ => none) = some t
  rw [show pad4 t.y ++ '-' :: pad2 t.m ++ '-' :: pad2 t.d
      = pad4 t.y ++ '-' :: (pad2 t.m ++ '-' :: pad2 t.d) by
    simp [List.cons_append, List.append_assoc]]
  rw [splitDash_sep (pad2 t.m ++ '-' :: pad2 t.d) (pad4_no_dash t.y),
    splitDash_sep (pad2 t.d) (pad2_no_dash t.m),
    splitDash_no_dash (pad2_no_dash t.d)]
  show (if ((pad4 t.y).length == 4) = true then _ else _) = some t
  rw [show ((pad4 t.y).length == 4) = true from rfl]
  simp only [if_true]
  rw [parseDigits_pad4 hy, parseDigits_pad2 (by omega : t.m ≤ 99),
    parseDigits_pad2 (by omega : t.d ≤ 99)]
  show (if (pad2 t.m).length ≤ 2 ∧ (pad2 t.d).length ≤ 2 ∧
      Ymd.validB ⟨t.y, t.m, t.d⟩ = true then some ⟨t.y, t.m, t.d⟩ else none) = some t
  rw [if_pos ⟨by simp [pad2], by simp [pad2], by simpa using h⟩]

theorem validB_of_parseYmd {s : String} {t : Ymd} (h : parseYmd s = some t) :
    Ymd.validB t = true := by
  unfold parseYmd at h
  repeat' split at h
  all_goals first
    | (rename_i hcond
       simp only [Option.some.injEq] at h
       subst h
       first
         | exact hcond.2.2
         | exact hcond.2.2.2)
    | simp at h

theorem dk_isSome_date {c : Cell} (h : (dk c).isSome = true) :
    ∃ t, c = some (.date t) := by
  cases c with
  | none => simp [dk] at h
  | some cv =>
    cases cv with
    | str s => simp [dk] at h
    | date t => exact ⟨t, rfl⟩

theorem serializeCell_raw {c : Cell} (h : c.isRaw = true) : serializeCell c = c := by
  cases c with
  | none => rfl
  | some cv =>
    cases cv with
    | str s => rfl
    | date t => simp [Cell.isRaw] at h

theorem coerceCell_readCellTarih (c : Cell) :
    coerceCell (readCellTarih c) = coerceCell c := by
  cases c with
  | none => rfl
  | some cv =>
    cases cv with
    | date t => rfl
    | str s =>
      show coerceCell (match parseYmd s with
        | some t => some (.date t) | none => some (.str s)) = coerceCell (some (.str s))
      cases hp : parseYmd s with
      | none => simp [coerceCell, hp]
      | some t => simp [coerceCell, hp]

theorem coerceCell_of_valid {t : Ymd} (h : Ymd.validB t = true) :
    coerceCell (some (.str (dateToStr t))) = some (.date t) := by
  simp [coerceCell, parseYmd_dateToStr h]

theorem updNth_updNth (i : Nat) (g g' : Cell → Cell) (r : Row) :
    updNth i g (updNth i g' r) = updNth i (fun c => g (g' c)) r := by
  induction r generalizing i with
  | nil => cases i <;> rfl
  | cons x xs ih =>
    cases i with
    | zero => rfl
    | succ j =>
      show x :: updNth j g (updNth j g' xs) = x :: updNth j (fun c => g (g' c)) xs
      rw [ih]

theorem listMapId {α : Type} {l : List α} {g : α → α} (h : ∀ x ∈ l, g x = x) :
    l.map g = l := by
  induction l with
  | nil => rfl
  | cons x xs ih =>
    rw [List.map_cons, h x (List.mem_cons_self x xs),
      ih (fun y hy => h y (List.mem_cons_of_mem x hy))]

theorem tarihIdx_head (cs : List String) : tarihIdx ("Tarih" :: cs) = 0 := by
  simp [tarihIdx, List.findIdx?_cons]

theorem alignRow_self {c : String} (hc : c ≠ "Tarih") (x y : Cell) :
    alignRow ["Tarih", c] ["Tarih", c] [x, y] = [x, y] := by
  unfold alignRow lookupCell
  simp only [List.map_cons, List.map_nil]
  rw [show (("Tarih" : String) == "Tarih") = true from rfl,
    show (("Tarih" : String) == c) = false from beq_eq_false_iff_ne.mpr (Ne.symm hc)]
  simp [lookupCell]

/-! ### Shapes of well-formed rows, and branch-level unfoldings of the merge -/

theorem rowNormOk_shape {r : Row} (h : rowNormOk r = true) :
    ∃ t v, r = [some (.date t), v] ∧ Ymd.validB t = true ∧ Cell.isRaw v = true := by
  unfold rowNormOk at h
  split at h
  · rename_i t v
    exact ⟨t, v, rfl, ((Bool.and_eq_true _ _).mp h).1, ((Bool.and_eq_true _ _).mp h).2⟩
  · simp at h

theorem rowFileOk_shape {r : Row} (h : rowFileOk r = true) :
    ∃ a b, r = [a, b] ∧ Cell.isRaw a = true ∧ Cell.isRaw b = true := by
  unfold rowFileOk at h
  split at h
  · rename_i a b
    exact ⟨a, b, rfl, ((Bool.and_eq_true _ _).mp h).1, ((Bool.and_eq_true _ _).mp h).2⟩
  · simp at h

theorem wfFileB_parts {c : String} {f : Frame} (h : wfFileB c f = true) :
    f.cols = ["Tarih", c] ∧ c ≠ "Tarih" ∧ ∀ r ∈ f.rows, rowFileOk r = true := by
  unfold wfFileB at h
  rw [Bool.and_eq_true, Bool.and_eq_true] at h
  exact ⟨beq_iff_eq.mp h.1.1, by simpa using h.1.2, List.all_eq_true.mp h.2⟩

theorem wfNormB_parts {c : String} {f : Frame} (h : wfNormB c f = true) :
    f.cols = ["Tarih", c] ∧ c ≠ "Tarih" ∧ ∀ r ∈ f.rows, rowNormOk r = true := by
  unfold wfNormB at h
  rw [Bool.and_eq_true, Bool.and_eq_true] at h
  exact ⟨beq_iff_eq.mp h.1.1, by simpa using h.1.2, List.all_eq_true.mp h.2⟩

theorem appendWith_noneIncoming (srt : Nat → List Row → List Row)
    (file : Option Frame) :
    append_or_create_csv_with srt file none = (file, .noNewData) := rfl

theorem append_noneIncoming (file : Option Frame) :
    append_or_create_csv file none = (file, .noNewData) := rfl

theorem appendWith_emptyIncoming (srt : Nat → List Row → List Row)
    (file : Option Frame) (d : Frame) (hde : d.emptyB = true) :
    append_or_create_csv_with srt file (some d) = (file, .noNewData) := by
  simp only [append_or_create_csv_with]
  rw [hde]
  simp

theorem append_emptyIncoming (file : Option Frame) (d : Frame)
    (hde : d.emptyB = true) :
    append_or_create_csv file (some d) = (file, .noNewData) :=
  appendWith_emptyIncoming sortRows file d hde

theorem appendWith_create_branch (srt : Nat → List Row → List Row) (d : Frame)
    (hde : d.emptyB = false) :
    append_or_create_csv_with srt none (some d)
      = (some (toCsv d), .created d.rows.length) := by
  simp only [append_or_create_csv_with]
  rw [hde]
  simp

theorem append_create_branch (d : Frame) (hde : d.emptyB = false) :
    append_or_create_csv none (some d) = (some (toCsv d), .created d.rows.length) :=
  appendWith_create_branch sortRows d hde

theorem appendWith_update_branch (srt : Nat → List Row → List Row) (f d : Frame)
    (hde : d.emptyB = false) :
    append_or_create_csv_with srt (some f) (some d) =
      (some (toCsv (dropDupTarihKeepLast (sortValuesTarihWith srt (dropnaTarih
          (toDatetimeTarih (concatF (readCsv f) d)))))),
        .updated (dropDupTarihKeepLast (sortValuesTarihWith srt (dropnaTarih
          (toDatetimeTarih (concatF (readCsv f) d))))).rows.length) := by
  simp only [append_or_create_csv_with]
  rw [hde]
  simp

/-- The parsed, coerced, NaT-dropped concatenation the update branch builds. -/
def prepRows (l : List Row) : List Row :=
  (l.map (updNth 0 coerceCell)).filter (fun r => (cellAt 0 r).isSome)

/-- The row list the update branch writes back, before serialization. -/
def mergedRows (oldRows incRows : List Row) : List Row :=
  canonRows 0 (prepRows (oldRows ++ incRows))

theorem concatF_pair {c : String} (hc : c ≠ "Tarih") (r1 r2 : List Row)
    (h1 : ∀ r ∈ r1, ∃ x y, r = [x, y]) (h2 : ∀ r ∈ r2, ∃ x y, r = [x, y]) :
    concatF ⟨["Tarih", c], r1⟩ ⟨["Tarih", c], r2⟩ = ⟨["Tarih", c], r1 ++ r2⟩ := by
  have hfe : List.filter (fun x => !(List.contains ["Tarih", c] x)) ["Tarih", c] = [] := by
    simp
  simp only [concatF, hfe, List.append_nil]
  congr 1
  have hA : ∀ r ∈ r1, alignRow ["Tarih", c] ["Tarih", c] r = r := by
    intro r hr
    obtain ⟨x, y, rfl⟩ := h1 r hr
    exact alignRow_self hc x y
  have hB : ∀ r ∈ r2, alignRow ["Tarih", c] ["Tarih", c] r = r := by
    intro r hr
    obtain ⟨x, y, rfl⟩ := h2 r hr
    exact alignRow_self hc x y
  rw [listMapId hA, listMapId hB]

theorem appendWith_update_eq (srt : Nat → List Row → List Row) {c : String}
    {f inc : Frame}
    (hf : wfFileB c f = true) (hi : wfNormB c inc = true) (hne : inc.rows ≠ []) :
    append_or_create_csv_with srt (some f) (some inc) =
      (some ⟨["Tarih", c],
          (dedupRows 0 (srt 0 (prepRows (f.rows ++ inc.rows)))).map
            (fun r => r.map serializeCell)⟩,
        .updated (dedupRows 0 (srt 0 (prepRows (f.rows ++ inc.rows)))).length) := by
  obtain ⟨hfc, hcne, hfr⟩ := wfFileB_parts hf
  obtain ⟨hic, -, hir⟩ := wfNormB_parts hi
  have hde : inc.emptyB = false := by
    unfold Frame.emptyB
    rw [hic]
    simp [List.isEmpty_iff, hne]
  rw [appendWith_update_branch srt f inc hde]
  have hread : readCsv f = ⟨["Tarih", c], f.rows.map (updNth 0 readCellTarih)⟩ := by
    unfold readCsv
    rw [hfc, tarihIdx_head]
  have hconcat : concatF ⟨["Tarih", c], f.rows.map (updNth 0 readCellTarih)⟩ inc
      = ⟨["Tarih", c], f.rows.map (updNth 0 readCellTarih) ++ inc.rows⟩ := by
    have hinc2 : inc = (⟨["Tarih", c], inc.rows⟩ : Frame) := by
      cases inc
      simp only at hic
      rw [hic]
    rw [hinc2]
    refine concatF_pair hcne _ _ ?_ ?_
    · intro r hr
      obtain ⟨r0, hr0, rfl⟩ := List.mem_map.mp hr
      obtain ⟨a, b, rfl, -, -⟩ := rowFileOk_shape (hfr r0 hr0)
      exact ⟨readCellTarih a, b, rfl⟩
    · intro r hr
      obtain ⟨t, v, rfl, -, -⟩ := rowNormOk_shape (hir r hr)
      exact ⟨some (.date t), v, rfl⟩
  have hmapcoerce : (f.rows.map (updNth 0 readCellTarih) ++ inc.rows).map
      (updNth 0 coerceCell) = (f.rows ++ inc.rows).map (updNth 0 coerceCell) := by
    rw [List.map_append, List.map_append, List.map_map]
    congr 1
    have : (updNth 0 coerceCell ∘ updNth 0 readCellTarih) = updNth 0 coerceCell := by
      funext r
      show updNth 0 coerceCell (updNth 0 readCellTarih r) = updNth 0 coerceCell r
      rw [updNth_updNth]
      congr 1
      funext cc
      exact coerceCell_readCellTarih cc
    rw [this]
  have hcoerce : toDatetimeTarih ⟨["Tarih", c],
      f.rows.map (updNth 0 readCellTarih) ++ inc.rows⟩
      = ⟨["Tarih", c], (f.rows ++ inc.rows).map (updNth 0 coerceCell)⟩ := by
    unfold toDatetimeTarih
    simp only [tarihIdx_head]
    rw [← hmapcoerce]
  have hdrop : dropnaTarih ⟨["Tarih", c],
      (f.rows ++ inc.rows).map (updNth 0 coerceCell)⟩
      = ⟨["Tarih", c], prepRows (f.rows ++ inc.rows)⟩ := by
    unfold dropnaTarih prepRows
    simp only [tarihIdx_head]
  have hsort : sortValuesTarihWith srt ⟨["Tarih", c], prepRows (f.rows ++ inc.rows)⟩
      = ⟨["Tarih", c], srt 0 (prepRows (f.rows ++ inc.rows))⟩ := by
    unfold sortValuesTarihWith
    simp only [tarihIdx_head]
  have hdedup : dropDupTarihKeepLast ⟨["Tarih", c],
      srt 0 (prepRows (f.rows ++ inc.rows))⟩
      = ⟨["Tarih", c], dedupRows 0 (srt 0 (prepRows (f.rows ++ inc.rows)))⟩ := by
    unfold dropDupTarihKeepLast
    simp only [tarihIdx_head]
  rw [hread, hconcat, hcoerce, hdrop, hsort, hdedup]
  rfl

theorem append_update_eq {c : String} {f inc : Frame}
    (hf : wfFileB c f = true) (hi : wfNormB c inc = true) (hne : inc.rows ≠ []) :
    append_or_create_csv (some f) (some inc) =
      (some ⟨["Tarih", c],
          (mergedRows f.rows inc.rows).map (fun r => r.map serializeCell)⟩,
        .updated (mergedRows f.rows inc.rows).length) :=
  appendWith_update_eq sortRows hf hi hne

/-! ### Shape of the merged rows and serialization round trip -/

theorem prepRows_append (A B : List Row) :
    prepRows (A ++ B) = prepRows A ++ prepRows B := by
  unfold prepRows
  rw [List.map_append, List.filter_append]

theorem cellAt_zero_cons (x : Cell) (xs : List Cell) : cellAt 0 (x :: xs) = x := rfl

theorem cellAt_zero_updNth (g : Cell → Cell) (hg : g none = none) (r : Row) :
    cellAt 0 (updNth 0 g r) = g (cellAt 0 r) := by
  cases r with
  | nil =>
    show (none : Cell) = g none
    rw [hg]
  | cons x xs => rfl

theorem prepRows_rowNormOk {L : List Row}
    (hL : ∀ r ∈ L, rowFileOk r = true ∨ rowNormOk r = true) :
    ∀ r ∈ prepRows L, rowNormOk r = true := by
  intro r hr
  unfold prepRows at hr
  obtain ⟨hr1, hp⟩ := List.mem_filter.mp hr
  obtain ⟨r0, hr0, rfl⟩ := List.mem_map.mp hr1
  rcases hL r0 hr0 with h | h
  · obtain ⟨a, b, rfl, ha, hb⟩ := rowFileOk_shape h
    show rowNormOk [coerceCell a, b] = true
    cases a with
    | none => simp [updNth, cellAt, coerceCell] at hp
    | some cv =>
      cases cv with
      | date t => simp [Cell.isRaw] at ha
      | str s =>
        cases hps : parseYmd s with
        | none => simp [updNth, cellAt, coerceCell, hps] at hp
        | some t =>
          simp [rowNormOk, coerceCell, hps, validB_of_parseYmd hps, hb]
  · obtain ⟨t, v, rfl, hv, hraw⟩ := rowNormOk_shape h
    show rowNormOk [coerceCell (some (.date t)), v] = true
    simp [rowNormOk, coerceCell, hv, hraw]

theorem rowNormOk_allDates {M : List Row} (h : ∀ r ∈ M, rowNormOk r = true) :
    allDates 0 M := by
  intro r hr
  obtain ⟨t, v, rfl, -, -⟩ := rowNormOk_shape (h r hr)
  rfl

theorem prepRows_norm {B : List Row} (hB : ∀ r ∈ B, rowNormOk r = true) :
    prepRows B = B := by
  unfold prepRows
  have h1 : ∀ r ∈ B, updNth 0 coerceCell r = r := by
    intro r hr
    obtain ⟨t, v, rfl, -, -⟩ := rowNormOk_shape (hB r hr)
    rfl
  rw [listMapId h1, List.filter_eq_self.mpr]
  intro r hr
  obtain ⟨t, v, rfl, -, -⟩ := rowNormOk_shape (hB r hr)
  rfl

theorem prepRows_serialized {M : List Row} (hM : ∀ r ∈ M, rowNormOk r = true) :
    prepRows (M.map (fun r => r.map serializeCell)) = M := by
  unfold prepRows
  rw [List.map_map]
  have h1 : ∀ r ∈ M,
      (updNth 0 coerceCell ∘ fun r => r.map serializeCell) r = r := by
    intro r hr
    obtain ⟨t, v, rfl, hv, hraw⟩ := rowNormOk_shape (hM r hr)
    show updNth 0 coerceCell
      [serializeCell (some (.date t)), serializeCell v] = [some (.date t), v]
    rw [serializeCell_raw hraw]
    show [coerceCell (some (.str (dateToStr t))), v] = [some (.date t), v]
    rw [coerceCell_of_valid hv]
  rw [listMapId h1, List.filter_eq_self.mpr]
  intro r hr
  obtain ⟨t, v, rfl, -, -⟩ := rowNormOk_shape (hM r hr)
  rfl

theorem mergedRows_rowNormOk {oldRows incRows : List Row}
    (ho : ∀ r ∈ oldRows, rowFileOk r = true)
    (hi : ∀ r ∈ incRows, rowNormOk r = true) :
    ∀ r ∈ mergedRows oldRows incRows, rowNormOk r = true := by
  intro r hr
  unfold mergedRows at hr
  refine prepRows_rowNormOk ?_ r (mem_canonRows hr)
  intro r0 hr0
  rcases List.mem_append.mp hr0 with h | h
  · exact Or.inl (ho r0 h)
  · exact Or.inr (hi r0 h)

theorem dateToStr_inj {t1 t2 : Ymd} (h1 : Ymd.validB t1 = true)
    (h2 : Ymd.validB t2 = true) (he : dateToStr t1 = dateToStr t2) : t1 = t2 := by
  have := parseYmd_dateToStr h1
  rw [he, parseYmd_dateToStr h2] at this
  exact (Option.some.injEq .. |>.mp this).symm

theorem filterCell_serialized {M : List Row} (hM : ∀ r ∈ M, rowNormOk r = true)
    {D : Ymd} (hD : Ymd.validB D = true) :
    (M.map (fun r => r.map serializeCell)).filter
        (fun r => cellAt 0 r == some (.str (dateToStr D)))
      = (filterCell 0 (some (.date D)) M).map (fun r => r.map serializeCell) := by
  induction M with
  | nil => rfl
  | cons r rs ih =>
    obtain ⟨t, v, rfl, hv, hraw⟩ := rowNormOk_shape (hM _ (List.mem_cons_self _ _))
    have ih2 := ih (fun x hx => hM x (List.mem_cons_of_mem _ hx))
    rw [List.map_cons, List.filter_cons, filterCell_cons]
    by_cases he : t = D
    · subst he
      have c1 : ((cellAt 0 (List.map serializeCell [some (.date t), v]) : Cell)
          == some (.str (dateToStr t))) = true := by
        show ((some (.str (dateToStr t)) : Cell) == some (.str (dateToStr t))) = true
        exact beq_self_eq_true _
      have c2 : ((cellAt 0 [some (.date t), v] : Cell) == some (.date t)) = true := by
        show ((some (.date t) : Cell) == some (.date t)) = true
        exact beq_self_eq_true _
      rw [c1, c2]
      simp only [if_true, List.map_cons]
      rw [ih2]
    · have hs : dateToStr t ≠ dateToStr D := fun hc => he (dateToStr_inj hv hD hc)
      have c1 : ((cellAt 0 (List.map serializeCell [some (.date t), v]) : Cell)
          == some (.str (dateToStr D))) = false := by
        show ((some (.str (dateToStr t)) : Cell) == some (.str (dateToStr D))) = false
        exact beq_eq_false_iff_ne.mpr (by simp [hs])
      have c2 : ((cellAt 0 [some (.date t), v] : Cell) == some (.date D)) = false := by
        show ((some (.date t) : Cell) == some (.date D)) = false
        exact beq_eq_false_iff_ne.mpr (by simp [he])
      rw [c1, c2]
      simp only [Bool.false_eq_true, if_false]
      exact ih2

/-! ### Invariants of the written file and idempotence of the merge -/

theorem serializedRows_fileOk {M : List Row} (hM : ∀ r ∈ M, rowNormOk r = true) :
    ∀ r ∈ M.map (fun r => r.map serializeCell), rowFileOk r = true := by
  intro r hr
  obtain ⟨r0, hr0, rfl⟩ := List.mem_map.mp hr
  obtain ⟨t, v, rfl, hv, hraw⟩ := rowNormOk_shape (hM r0 hr0)
  show rowFileOk [serializeCell (some (.date t)), serializeCell v] = true
  rw [serializeCell_raw hraw]
  show (Cell.isRaw (some (.str (dateToStr t))) && Cell.isRaw v) = true
  rw [Bool.and_eq_true]
  exact ⟨rfl, hraw⟩

theorem wfFileB_mk {c : String} {rows : List Row} (hc : c ≠ "Tarih")
    (h : ∀ r ∈ rows, rowFileOk r = true) :
    wfFileB c ⟨["Tarih", c], rows⟩ = true := by
  unfold wfFileB
  simp [hc, List.all_eq_true]
  exact h

theorem rows_ne_of_not_empty {g : Frame} (h : g.emptyB = false) : g.rows ≠ [] := by
  unfold Frame.emptyB at h
  intro hr
  rw [hr] at h
  simp at h

theorem emptyB_false_of_wf {c : String} {g : Frame} (hg : wfNormB c g = true)
    (hne : g.rows ≠ []) : g.emptyB = false := by
  obtain ⟨hc, -, -⟩ := wfNormB_parts hg
  unfold Frame.emptyB
  rw [hc]
  simp [List.isEmpty_iff, hne]

theorem fileKey_ser {t : Ymd} {v : Cell} (hv : Ymd.validB t = true) :
    fileKey ([some (.date t), v].map serializeCell) = some t := by
  show fileKey [serializeCell (some (.date t)), serializeCell v] = some t
  show parseYmd (dateToStr t) = some t
  exact parseYmd_dateToStr hv

theorem InvFile_serialized {cols : List String} {M : List Row}
    (hM : ∀ r ∈ M, rowNormOk r = true) (hsort : SortedLT 0 M) :
    InvFile ⟨cols, M.map (fun r => r.map serializeCell)⟩ := by
  constructor
  · intro r hr
    obtain ⟨r0, hr0, rfl⟩ := List.mem_map.mp hr
    obtain ⟨t, v, rfl, hv, -⟩ := rowNormOk_shape (hM r0 hr0)
    rw [fileKey_ser hv]
    rfl
  · show (M.map (fun r => r.map serializeCell)).Pairwise _
    rw [List.pairwise_map]
    unfold SortedLT at hsort
    refine hsort.imp_of_mem ?_
    intro a b ha hb hab
    obtain ⟨ta, va, rfl, hva, -⟩ := rowNormOk_shape (hM a ha)
    obtain ⟨tb, vb, rfl, hvb, -⟩ := rowNormOk_shape (hM b hb)
    rw [fileKey_ser hva, fileKey_ser hvb]
    exact hab

theorem mergedRows_sortedLT {oldRows incRows : List Row}
    (ho : ∀ r ∈ oldRows, rowFileOk r = true)
    (hi : ∀ r ∈ incRows, rowNormOk r = true) :
    SortedLT 0 (mergedRows oldRows incRows) := by
  unfold mergedRows
  refine canonRows_sortedLT (rowNormOk_allDates (prepRows_rowNormOk ?_))
  intro r hr
  rcases List.mem_append.mp hr with h | h
  · exact Or.inl (ho r h)
  · exact Or.inr (hi r h)

theorem update_invariant {c : String} {f inc : Frame}
    (hf : wfFileB c f = true) (hi : wfNormB c inc = true) :
    wfFileB c ⟨["Tarih", c],
        (mergedRows f.rows inc.rows).map (fun r => r.map serializeCell)⟩ = true ∧
      InvFile ⟨["Tarih", c],
        (mergedRows f.rows inc.rows).map (fun r => r.map serializeCell)⟩ := by
  obtain ⟨hfc, hcne, hfr⟩ := wfFileB_parts hf
  obtain ⟨hic, -, hir⟩ := wfNormB_parts hi
  have hMok := mergedRows_rowNormOk hfr hir
  exact ⟨wfFileB_mk hcne (serializedRows_fileOk hMok),
    InvFile_serialized hMok (mergedRows_sortedLT hfr hir)⟩

theorem toCsv_wf {c : String} {g : Frame} (hg : wfNormB c g = true) :
    toCsv g = ⟨["Tarih", c], g.rows.map (fun r => r.map serializeCell)⟩ := by
  obtain ⟨hic, -, -⟩ := wfNormB_parts hg
  cases g with
  | mk cols rows =>
    simp only at hic
    subst hic
    rfl

theorem create_invariant {c : String} {g : Frame} (hg : wfNormB c g = true)
    (hsort : incStrict g) :
    wfFileB c (toCsv g) = true ∧ InvFile (toCsv g) := by
  obtain ⟨hic, hcne, hir⟩ := wfNormB_parts hg
  rw [toCsv_wf hg]
  exact ⟨wfFileB_mk hcne (serializedRows_fileOk hir),
    InvFile_serialized hir hsort⟩

theorem dedupSort_rowNormOk {srt : Nat → List Row → List Row}
    (hsrt : IsKeySort srt) {oldRows incRows : List Row}
    (ho : ∀ r ∈ oldRows, rowFileOk r = true)
    (hi : ∀ r ∈ incRows, rowNormOk r = true) :
    ∀ r ∈ dedupRows 0 (srt 0 (prepRows (oldRows ++ incRows))),
      rowNormOk r = true := by
  intro r hr
  have hrL : r ∈ prepRows (oldRows ++ incRows) :=
    (hsrt 0 _).1.subset (mem_dedupRows hr)
  refine prepRows_rowNormOk ?_ r hrL
  intro r0 hr0
  rcases List.mem_append.mp hr0 with h | h
  · exact Or.inl (ho r0 h)
  · exact Or.inr (hi r0 h)

theorem dedupSort_sortedLT {srt : Nat → List Row → List Row}
    (hsrt : IsKeySort srt) {L : List Row} (hLd : allDates 0 L) :
    SortedLT 0 (dedupRows 0 (srt 0 L)) :=
  dedupRows_sortedLT (hsrt 0 L).2 (fun r hr => hLd r ((hsrt 0 L).1.subset hr))

theorem runMerges_aux {c : String} (incs : List (Option Frame)) :
    ∀ s : Option Frame,
    (∀ x ∈ incs, ∀ g, x = some g → wfNormB c g = true) →
    (s = none → firstEffectiveSorted incs) →
    (∀ f0, s = some f0 → wfFileB c f0 = true ∧ InvFile f0) →
    ∀ f, incs.foldl (fun st d => (append_or_create_csv st d).fst) s = some f →
      wfFileB c f = true ∧ InvFile f := by
  induction incs with
  | nil =>
    intro s _ _ hs f hf
    rw [List.foldl_nil] at hf
    exact hs f hf
  | cons x xs ih =>
    intro s hwf hfes hs f hf
    rw [List.foldl_cons] at hf
    have hwf2 : ∀ y ∈ xs, ∀ g, y = some g → wfNormB c g = true :=
      fun y hy => hwf y (List.mem_cons_of_mem x hy)
    cases x with
    | none =>
      rw [append_noneIncoming] at hf
      dsimp only at hf
      exact ih s hwf2 (fun hn => hfes hn) hs f hf
    | some g =>
      have hgw : wfNormB c g = true := hwf (some g) (List.mem_cons_self _ _) g rfl
      by_cases hge : g.emptyB = true
      · rw [append_emptyIncoming s g hge] at hf
        dsimp only at hf
        refine ih s hwf2 (fun hn => ?_) hs f hf
        have h2 := hfes hn
        unfold firstEffectiveSorted at h2
        rw [if_pos hge] at h2
        exact h2
      · rw [Bool.not_eq_true] at hge
        have hgne : g.rows ≠ [] := rows_ne_of_not_empty hge
        cases s with
        | none =>
          have hsort : incStrict g := by
            have h2 := hfes rfl
            unfold firstEffectiveSorted at h2
            rw [if_neg (by rw [hge]; exact Bool.false_ne_true)] at h2
            exact h2
          rw [append_create_branch g hge] at hf
          dsimp only at hf
          refine ih (some (toCsv g)) hwf2 (fun hn => by simp at hn) ?_ f hf
          intro f0 h0
          injection h0 with h0
          subst h0
          exact create_invariant hgw hsort
        | some f0 =>
          obtain ⟨hw0, hi0⟩ := hs f0 rfl
          rw [append_update_eq hw0 hgw hgne] at hf
          dsimp only at hf
          refine ih _ hwf2 (fun hn => by simp at hn) ?_ f hf
          intro f1 h1
          injection h1 with h1
          subst h1
          exact update_invariant hw0 hgw

/-! ### Concrete frames for the worked examples -/

/-- The stored file of spec section 8's update scenario. -/
def exFile : Frame :=
  ⟨["Tarih", "V"], [[some (.str "2021-01-01"), some (.str "7.5")],
                    [some (.str "2021-01-02"), some (.str "7.8")]]⟩

/-- The incoming rows of spec section 8's update scenario. -/
def exInc : Frame :=
  ⟨["Tarih", "V"], [[some (.date ⟨2021, 1, 2⟩), some (.str "7.9")],
                    [some (.date ⟨2021, 1, 4⟩), some (.str "8.0")]]⟩

/-- An incoming record set whose rows arrive out of date order. -/
def exIncBad : Frame :=
  ⟨["Tarih", "V"], [[some (.date ⟨2021, 1, 3⟩), some (.str "8.1")],
                    [some (.date ⟨2021, 1, 1⟩), some (.str "7.5")]]⟩

/-- The incoming rows of spec section 8's creation scenario, in date order. -/
def exIncCreate : Frame :=
  ⟨["Tarih", "V"], [[some (.date ⟨2021, 1, 1⟩), some (.str "7.5")],
                    [some (.date ⟨2021, 1, 3⟩), some (.str "8.1")]]⟩

/-- An incoming record set sharing the date 2021-01-02 with `exFile` at an
equal value: no date is carried with two different values. -/
def exIncNoConf : Frame :=
  ⟨["Tarih", "V"], [[some (.date ⟨2021, 1, 2⟩), some (.str "7.8")],
                    [some (.date ⟨2021, 1, 4⟩), some (.str "8.0")]]⟩

/-! ### Claim theorems for the store and merger -/

/-- C1 counterexample: the `sort_values` contract (a by-date sorted
permutation; the default quicksort promises no tie order) admits the order
`swapSortRows`, under which the merge of the spec's own update scenario
keeps the STORED value 7.8 at the shared date 2021-01-02, while the stable
instantiation keeps the incoming 7.9.  Which value survives a tied date is
decided by the library's unpromised tie order, not by the code, refuting
the unconditional incoming-wins claim. -/
theorem C1_merge_conflict_counterexample :
    IsKeySort swapSortRows ∧
    (append_or_create_csv_with swapSortRows (some exFile) (some exInc)).fst
      = some ⟨["Tarih", "V"],
          [[some (.str "2021-01-01"), some (.str "7.5")],
           [some (.str "2021-01-02"), some (.str "7.8")],
           [some (.str "2021-01-04"), some (.str "8.0")]]⟩ ∧
    (append_or_create_csv (some exFile) (some exInc)).fst
      = some ⟨["Tarih", "V"],
          [[some (.str "2021-01-01"), some (.str "7.5")],
           [some (.str "2021-01-02"), some (.str "7.9")],
           [some (.str "2021-01-04"), some (.str "8.0")]]⟩ :=
  ⟨swapSortRows_isKeySort, by decide, by decide⟩

/-- C1 (amended): with stored file A and non-empty incoming B sharing date
D with differing values, every admissible sort order yields a file with
exactly one row for D, whose value is one of the values the prepared
stored rows or the incoming rows carry at D; under a tie-stable sort — the
stability the library does not promise, met in particular by the model's
executable instantiation — that value is B's last at D. -/
theorem C1_merge_conflict_amended (c : String) (f inc : Frame) (D : Ymd)
    (va vb : Cell)
    (hf : wfFileB c f = true) (hinc : wfNormB c inc = true)
    (hA : ∃ r ∈ f.rows, fileKey r = some D ∧ cellAt 1 r = va)
    (hB : (filterCell 0 (some (.date D)) inc.rows).getLast?
      = some [some (.date D), vb])
    (hdiff : va ≠ vb) :
    (∀ srt, IsKeySort srt → ∃ x : Cell,
      ([some (.date D), x] ∈ prepRows f.rows ∨ [some (.date D), x] ∈ inc.rows) ∧
      ∃ g, (append_or_create_csv_with srt (some f) (some inc)).fst = some g ∧
        g.rows.filter (fun r => cellAt 0 r == some (.str (dateToStr D)))
          = [[some (.str (dateToStr D)), x]]) ∧
    (∀ srt, IsKeySort srt → TieStable srt →
      ∃ g, (append_or_create_csv_with srt (some f) (some inc)).fst = some g ∧
        g.rows.filter (fun r => cellAt 0 r == some (.str (dateToStr D)))
          = [[some (.str (dateToStr D)), vb]]) ∧
    (∃ g, (append_or_create_csv (some f) (some inc)).fst = some g ∧
      g.rows.filter (fun r => cellAt 0 r == some (.str (dateToStr D)))
        = [[some (.str (dateToStr D)), vb]]) := by
  obtain ⟨hfc, hcne, hfr⟩ := wfFileB_parts hf
  obtain ⟨hic, -, hir⟩ := wfNormB_parts hinc
  have hBrow : [some (.date D), vb] ∈ inc.rows := by
    have hmem : [some (.date D), vb] ∈ filterCell 0 (some (.date D)) inc.rows :=
      getLast?_mem_list hB
    exact (mem_filterCell.mp hmem).1
  obtain ⟨t0, v0, heq, hDv, hv0raw⟩ := rowNormOk_shape (hir _ hBrow)
  simp only [List.cons.injEq, Option.some.injEq, Cv.date.injEq, and_true] at heq
  obtain ⟨h1, h2⟩ := heq
  subst h1
  subst h2
  have hne : inc.rows ≠ [] := by
    intro h
    rw [h] at hBrow
    simp at hBrow
  have hfb : filterCell 0 (some (.date D)) inc.rows ≠ [] := by
    intro hnil
    rw [hnil] at hB
    simp at hB
  have hsplit : prepRows (f.rows ++ inc.rows) = prepRows f.rows ++ inc.rows := by
    rw [prepRows_append, prepRows_norm hir]
  have hLok : ∀ r ∈ prepRows (f.rows ++ inc.rows), rowNormOk r = true :=
    prepRows_rowNormOk (fun r hr => by
      rcases List.mem_append.mp hr with h | h
      · exact Or.inl (hfr r h)
      · exact Or.inr (hir r h))
  have stablePart : ∀ srt, IsKeySort srt → TieStable srt →
      ∃ g, (append_or_create_csv_with srt (some f) (some inc)).fst = some g ∧
        g.rows.filter (fun r => cellAt 0 r == some (.str (dateToStr D)))
          = [[some (.str (dateToStr D)), vb]] := by
    intro srt hsrt hstab
    have hMok : ∀ r ∈ dedupRows 0 (srt 0 (prepRows (f.rows ++ inc.rows))),
        rowNormOk r = true := dedupSort_rowNormOk hsrt hfr hir
    refine ⟨⟨["Tarih", c],
      (dedupRows 0 (srt 0 (prepRows (f.rows ++ inc.rows)))).map
        (fun r => r.map serializeCell)⟩, ?_, ?_⟩
    · rw [appendWith_update_eq srt hf hinc hne]
    · show (List.map (fun r => r.map serializeCell)
        (dedupRows 0 (srt 0 (prepRows (f.rows ++ inc.rows))))).filter _ = _
      rw [filterCell_serialized hMok hDv]
      have hfilter : filterCell 0 (some (.date D))
          (dedupRows 0 (srt 0 (prepRows (f.rows ++ inc.rows))))
          = [[some (.date D), vb]] := by
        rw [filterCell_dedupRows,
          hstab 0 (some (.date D)) (prepRows (f.rows ++ inc.rows)), hsplit,
          lastCell_append_right hfb, hB]
        rfl
      rw [hfilter]
      show [[serializeCell (some (.date D)), serializeCell vb]] = _
      rw [serializeCell_raw hv0raw]
      rfl
  refine ⟨?_, stablePart, stablePart sortRows sortRows_isKeySort sortRows_tieStable⟩
  intro srt hsrt
  have hMok : ∀ r ∈ dedupRows 0 (srt 0 (prepRows (f.rows ++ inc.rows))),
      rowNormOk r = true := dedupSort_rowNormOk hsrt hfr hir
  have hBL : [some (.date D), vb] ∈ prepRows (f.rows ++ inc.rows) := by
    rw [hsplit]
    exact List.mem_append.mpr (Or.inr hBrow)
  have hBS : [some (.date D), vb] ∈ srt 0 (prepRows (f.rows ++ inc.rows)) :=
    (hsrt 0 _).1.mem_iff.mpr hBL
  have hfs : filterCell 0 (some (.date D))
      (srt 0 (prepRows (f.rows ++ inc.rows))) ≠ [] := by
    intro hnil
    have hmem : [some (.date D), vb] ∈ filterCell 0 (some (.date D))
        (srt 0 (prepRows (f.rows ++ inc.rows))) :=
      mem_filterCell.mpr ⟨hBS, rfl⟩
    rw [hnil] at hmem
    simp at hmem
  obtain ⟨rstar, hrstar⟩ := getLast?_some_of_ne_nil hfs
  have hrmem : rstar ∈ filterCell 0 (some (.date D))
      (srt 0 (prepRows (f.rows ++ inc.rows))) := getLast?_mem_list hrstar
  obtain ⟨hrS, hrv⟩ := mem_filterCell.mp hrmem
  have hrL : rstar ∈ prepRows (f.rows ++ inc.rows) := (hsrt 0 _).1.subset hrS
  obtain ⟨t1, x, hxeq, ht1v, hxraw⟩ := rowNormOk_shape (hLok rstar hrL)
  have ht1D : t1 = D := by
    rw [hxeq] at hrv
    have h3 : (some (Cv.date t1) : Cell) = some (.date D) := hrv
    simp only [Option.some.injEq, Cv.date.injEq] at h3
    exact h3
  rw [ht1D] at hxeq
  refine ⟨x, ?_, ?_⟩
  · rw [hsplit, hxeq] at hrL
    exact List.mem_append.mp hrL
  · refine ⟨⟨["Tarih", c],
      (dedupRows 0 (srt 0 (prepRows (f.rows ++ inc.rows)))).map
        (fun r => r.map serializeCell)⟩, ?_, ?_⟩
    · rw [appendWith_update_eq srt hf hinc hne]
    · show (List.map (fun r => r.map serializeCell)
        (dedupRows 0 (srt 0 (prepRows (f.rows ++ inc.rows))))).filter _ = _
      rw [filterCell_serialized hMok hDv]
      have hfilter : filterCell 0 (some (.date D))
          (dedupRows 0 (srt 0 (prepRows (f.rows ++ inc.rows))))
          = [[some (.date D), x]] := by
        rw [filterCell_dedupRows, hrstar, hxeq]
        rfl
      rw [hfilter]
      show [[serializeCell (some (.date D)), serializeCell x]] = _
      rw [serializeCell_raw hxraw]
      rfl

theorem C1_merge_conflict_amended_witness :
    (wfFileB "V" exFile = true ∧ wfNormB "V" exInc = true ∧
      (∃ r ∈ exFile.rows, fileKey r = some ⟨2021, 1, 2⟩ ∧
        cellAt 1 r = some (.str "7.8")) ∧
      (filterCell 0 (some (.date ⟨2021, 1, 2⟩)) exInc.rows).getLast?
        = some [some (.date ⟨2021, 1, 2⟩), some (.str "7.9")] ∧
      (some (.str "7.8") : Cell) ≠ some (.str "7.9")) ∧
    ∃ g, (append_or_create_csv (some exFile) (some exInc)).fst = some g ∧
      g.rows.filter (fun r => cellAt 0 r
          == some (.str (dateToStr ⟨2021, 1, 2⟩)))
        = [[some (.str (dateToStr ⟨2021, 1, 2⟩)), some (.str "7.9")]] :=
  ⟨⟨by decide, by decide, by decide, by decide, by decide⟩,
    (C1_merge_conflict_amended "V" exFile exInc ⟨2021, 1, 2⟩
      (some (.str "7.8")) (some (.str "7.9"))
      (by decide) (by decide) (by decide) (by decide) (by decide)).2.2⟩

/-- C2 counterexample: on an initially absent file, merging the same
out-of-date-order payload twice does not leave the file unchanged: the
first call writes the rows verbatim, the second call re-sorts them, so the
file after the second call differs from the file after the first. -/
theorem C2_idempotence_counterexample :
    (append_or_create_csv (append_or_create_csv none (some exIncBad)).fst
        (some exIncBad)).fst
      ≠ (append_or_create_csv none (some exIncBad)).fst := by decide

/-- C2 (amended): merging the same non-empty well-formed incoming record
set twice against the same file state yields the same file as merging it
once, under EVERY admissible by-date sort order on each call, provided
that when the call creates the file the incoming rows are strictly
ascending by date, and that when the file exists no date is carried with
two different values across the prepared stored rows and the incoming
rows.  The unamended claim fails on unsorted creation (the creation branch
writes rows verbatim, the second call re-sorts them); without the
no-conflict condition the surviving value at a tied date depends on the
library's unpromised tie order, so idempotence across both calls is not
guaranteed by the code either. -/
theorem C2_idempotence_amended (c : String) (file : Option Frame) (inc : Frame)
    (hinc : wfNormB c inc = true) (hne : inc.rows ≠ [])
    (hfile : ∀ g, file = some g → wfFileB c g = true)
    (hcreate : file = none → incStrict inc)
    (hnoconf : ∀ g, file = some g →
      ∀ r1 ∈ prepRows g.rows ++ inc.rows, ∀ r2 ∈ inc.rows,
        cellAt 0 r1 = cellAt 0 r2 → r1 = r2) :
    ∀ srt1 srt2, IsKeySort srt1 → IsKeySort srt2 →
      (append_or_create_csv_with srt2
          ((append_or_create_csv_with srt1 file (some inc)).fst) (some inc)).fst
        = (append_or_create_csv_with srt1 file (some inc)).fst := by
  intro srt1 srt2 hk1 hk2
  obtain ⟨-, hcne, hir⟩ := wfNormB_parts hinc
  have hBd : allDates 0 inc.rows := rowNormOk_allDates hir
  cases file with
  | none =>
    have hsort := hcreate rfl
    have hsortLT : SortedLT 0 inc.rows := hsort
    have hde : inc.emptyB = false := emptyB_false_of_wf hinc hne
    rw [appendWith_create_branch srt1 inc hde]
    dsimp only
    have hf1w : wfFileB c (toCsv inc) = true := (create_invariant hinc hsort).1
    rw [appendWith_update_eq srt2 hf1w hinc hne]
    dsimp only
    rw [toCsv_wf hinc]
    dsimp only
    have key : dedupRows 0 (srt2 0 (prepRows
        (inc.rows.map (fun r => r.map serializeCell) ++ inc.rows))) = inc.rows := by
      rw [prepRows_append, prepRows_serialized hir, prepRows_norm hir]
      exact dedup_srt_append_eq_self hk2 hBd hBd hsortLT (fun v h => h)
        (fun r1 m1 r2 m2 he => mem_unique_of_sortedLT hsortLT m1 m2 he)
    rw [key]
  | some f0 =>
    have hf0 := hfile f0 rfl
    obtain ⟨hfc, -, hfr⟩ := wfFileB_parts hf0
    rw [appendWith_update_eq srt1 hf0 hinc hne]
    dsimp only
    have hM1ok : ∀ r ∈ dedupRows 0 (srt1 0 (prepRows (f0.rows ++ inc.rows))),
        rowNormOk r = true := dedupSort_rowNormOk hk1 hfr hir
    have hf1w : wfFileB c ⟨["Tarih", c],
        (dedupRows 0 (srt1 0 (prepRows (f0.rows ++ inc.rows)))).map
          (fun r => r.map serializeCell)⟩ = true :=
      wfFileB_mk hcne (serializedRows_fileOk hM1ok)
    rw [appendWith_update_eq srt2 hf1w hinc hne]
    dsimp only
    have hLd : allDates 0 (prepRows (f0.rows ++ inc.rows)) :=
      rowNormOk_allDates (prepRows_rowNormOk (fun r hr => by
        rcases List.mem_append.mp hr with h | h
        · exact Or.inl (hfr r h)
        · exact Or.inr (hir r h)))
    have hM1d : allDates 0 (dedupRows 0 (srt1 0 (prepRows (f0.rows ++ inc.rows)))) :=
      rowNormOk_allDates hM1ok
    have hM1s : SortedLT 0 (dedupRows 0 (srt1 0 (prepRows (f0.rows ++ inc.rows)))) :=
      dedupSort_sortedLT hk1 hLd
    have hsplit : prepRows (f0.rows ++ inc.rows)
        = prepRows f0.rows ++ inc.rows := by
      rw [prepRows_append, prepRows_norm hir]
    have hBM : ∀ v : Cell, filterCell 0 v inc.rows ≠ [] →
        filterCell 0 v
          (dedupRows 0 (srt1 0 (prepRows (f0.rows ++ inc.rows)))) ≠ [] := by
      intro v hv
      obtain ⟨z, hz⟩ := List.exists_mem_of_ne_nil _ hv
      obtain ⟨hzB, hzv⟩ := mem_filterCell.mp hz
      have hzL : z ∈ prepRows (f0.rows ++ inc.rows) := by
        rw [hsplit]
        exact List.mem_append.mpr (Or.inr hzB)
      have hzS : z ∈ srt1 0 (prepRows (f0.rows ++ inc.rows)) :=
        (hk1 0 _).1.mem_iff.mpr hzL
      have hzf : z ∈ filterCell 0 v (srt1 0 (prepRows (f0.rows ++ inc.rows))) :=
        mem_filterCell.mpr ⟨hzS, hzv⟩
      have hfne : filterCell 0 v (srt1 0 (prepRows (f0.rows ++ inc.rows))) ≠ [] := by
        intro hnil
        rw [hnil] at hzf
        simp at hzf
      obtain ⟨a, ha⟩ := getLast?_some_of_ne_nil hfne
      rw [filterCell_dedupRows, ha]
      simp
    have hconfM : ∀ r1 ∈ dedupRows 0 (srt1 0 (prepRows (f0.rows ++ inc.rows))),
        ∀ r2 ∈ inc.rows, cellAt 0 r1 = cellAt 0 r2 → r1 = r2 := by
      intro r1 m1 r2 m2 he
      have hr1L : r1 ∈ prepRows (f0.rows ++ inc.rows) :=
        (hk1 0 _).1.subset (mem_dedupRows m1)
      refine hnoconf f0 rfl r1 ?_ r2 m2 he
      rw [← hsplit]
      exact hr1L
    have key : dedupRows 0 (srt2 0 (prepRows
        ((dedupRows 0 (srt1 0 (prepRows (f0.rows ++ inc.rows)))).map
          (fun r => r.map serializeCell) ++ inc.rows)))
        = dedupRows 0 (srt1 0 (prepRows (f0.rows ++ inc.rows))) := by
      rw [prepRows_append, prepRows_serialized hM1ok, prepRows_norm hir]
      exact dedup_srt_append_eq_self hk2 hM1d hBd hM1s hBM hconfM
    rw [key]

theorem C2_idempotence_amended_witness :
    (wfNormB "V" exIncNoConf = true ∧ exIncNoConf.rows ≠ []) ∧
    (append_or_create_csv
        (append_or_create_csv (some exFile) (some exIncNoConf)).fst
        (some exIncNoConf)).fst
      = (append_or_create_csv (some exFile) (some exIncNoConf)).fst :=
  ⟨⟨by decide, by decide⟩,
    C2_idempotence_amended "V" (some exFile) exIncNoConf (by decide) (by decide)
      (fun g hg => by injection hg with h; rw [← h]; decide)
      (fun h => nomatch h)
      (fun g hg => by injection hg with h; rw [← h]; decide)
      sortRows sortRows sortRows_isKeySort sortRows_isKeySort⟩

/-- C3 counterexample: when the file does not exist, the creation branch
writes the incoming rows without sorting them, so incoming rows arriving out
of date order produce a created file that is not in ascending date order,
contrary to the claim. -/
theorem C3_creation_counterexample :
    (append_or_create_csv none (some exIncBad)).fst
      = some ⟨["Tarih", "V"], [[some (.str "2021-01-03"), some (.str "8.1")],
                               [some (.str "2021-01-01"), some (.str "7.5")]]⟩ ∧
      ¬ InvFile ⟨["Tarih", "V"], [[some (.str "2021-01-03"), some (.str "8.1")],
                                  [some (.str "2021-01-01"), some (.str "7.5")]]⟩ := by
  constructor
  · decide
  · decide

/-- C3 (amended): when the target file does not exist,
`append_or_create_csv` writes the incoming rows verbatim, in their given
order (dates serialized), reporting "created" with the row count; the
created file is in ascending date order exactly when the incoming rows
already were (as in the spec's creation scenario), not in general. -/
theorem C3_creation_verbatim (c : String) (inc : Frame)
    (hinc : wfNormB c inc = true) (hne : inc.rows ≠ []) :
    append_or_create_csv none (some inc)
      = (some ⟨["Tarih", c], inc.rows.map (fun r => r.map serializeCell)⟩,
          .created inc.rows.length) ∧
      (incStrict inc →
        InvFile ⟨["Tarih", c], inc.rows.map (fun r => r.map serializeCell)⟩) := by
  have hde := emptyB_false_of_wf hinc hne
  constructor
  · rw [append_create_branch inc hde, toCsv_wf hinc]
  · intro hsort
    obtain ⟨-, -, hir⟩ := wfNormB_parts hinc
    exact InvFile_serialized hir hsort

theorem C3_creation_verbatim_witness :
    (wfNormB "V" exIncCreate = true ∧ exIncCreate.rows ≠ []) ∧
    (append_or_create_csv none (some exIncCreate)
      = (some ⟨["Tarih", "V"],
          [[some (.str "2021-01-01"), some (.str "7.5")],
           [some (.str "2021-01-03"), some (.str "8.1")]]⟩, .created 2) ∧
      (incStrict exIncCreate →
        InvFile ⟨["Tarih", "V"],
          [[some (.str "2021-01-01"), some (.str "7.5")],
           [some (.str "2021-01-03"), some (.str "8.1")]]⟩)) :=
  ⟨⟨by decide, by decide⟩, by
    have h := C3_creation_verbatim "V" exIncCreate (by decide) (by decide)
    exact h⟩

/-- C4 counterexample: a single merge starting from no file, fed a
well-formed incoming set whose rows are out of date order, yields a file
whose date column is not strictly increasing (creation does not sort). -/
theorem C4_sort_invariant_counterexample :
    wfNormB "V" exIncBad = true ∧
    runMerges [some exIncBad]
      = some ⟨["Tarih", "V"], [[some (.str "2021-01-03"), some (.str "8.1")],
                               [some (.str "2021-01-01"), some (.str "7.5")]]⟩ ∧
    ¬ InvFile ⟨["Tarih", "V"], [[some (.str "2021-01-03"), some (.str "8.1")],
                                [some (.str "2021-01-01"), some (.str "7.5")]]⟩ := by
  refine ⟨by decide, by decide, by decide⟩

/-- C4 (amended): for every sequence of `append_or_create_csv` calls
starting from no file, fed well-formed normalizer outputs for one series,
if the first payload that actually writes the file (the creating one) is
strictly ascending by date, then every produced file state has a parseable
date in every row and strictly increasing dates from first to last row.
Every update-branch write restores this invariant unconditionally; only the
creation write depends on the incoming order (see the counterexample). -/
theorem C4_sort_invariant_amended (c : String) (incs : List (Option Frame))
    (hwf : ∀ x ∈ incs, ∀ g, x = some g → wfNormB c g = true)
    (hfes : firstEffectiveSorted incs) :
    ∀ f, runMerges incs = some f → InvFile f := by
  intro f hf
  exact (runMerges_aux incs none hwf (fun _ => hfes)
    (fun f0 h0 => by simp at h0) f hf).2

theorem C4_sort_invariant_amended_witness :
    ((∀ x ∈ [some exIncCreate, some exInc], ∀ g, x = some g →
        wfNormB "V" g = true) ∧
      firstEffectiveSorted [some exIncCreate, some exInc] ∧
      runMerges [some exIncCreate, some exInc]
        = some ⟨["Tarih", "V"],
            [[some (.str "2021-01-01"), some (.str "7.5")],
             [some (.str "2021-01-02"), some (.str "7.9")],
             [some (.str "2021-01-03"), some (.str "8.1")],
             [some (.str "2021-01-04"), some (.str "8.0")]]⟩) ∧
    InvFile ⟨["Tarih", "V"],
        [[some (.str "2021-01-01"), some (.str "7.5")],
         [some (.str "2021-01-02"), some (.str "7.9")],
         [some (.str "2021-01-03"), some (.str "8.1")],
         [some (.str "2021-01-04"), some (.str "8.0")]]⟩ :=
  ⟨⟨by decide, by decide, by decide⟩,
    C4_sort_invariant_amended "V" [some exIncCreate, some exInc]
      (by decide) (by decide) _ (by decide)⟩

/-- C5: merging a null or empty incoming record set is a no-op: no write
happens, the file state (present or absent) is returned unchanged, and the
outcome reports "no new data" rather than an error. -/
theorem C5_empty_noop (file : Option Frame) :
    append_or_create_csv file none = (file, .noNewData) ∧
      ∀ d : Frame, d.emptyB = true →
        append_or_create_csv file (some d) = (file, .noNewData) :=
  ⟨append_noneIncoming file, fun d hd => append_emptyIncoming file d hd⟩

theorem C5_empty_noop_witness :
    (append_or_create_csv (some exFile) none = (some exFile, .noNewData)) ∧
      ((⟨["Tarih", "V"], []⟩ : Frame).emptyB = true ∧
        append_or_create_csv (some exFile) (some ⟨["Tarih", "V"], []⟩)
          = (some exFile, .noNewData)) :=
  ⟨(C5_empty_noop (some exFile)).1,
    by decide,
    (C5_empty_noop (some exFile)).2 ⟨["Tarih", "V"], []⟩ (by decide)⟩

/-! ### Label lookup facts for the normalizer's column selection -/

/-- Index of the first column other than the date column (where the value
column of a normalized series sits). -/
def firstValIdx (cols : List String) : Nat :=
  (cols.findIdx? (fun x => x != "Tarih")).getD 0

theorem cellAt_updNth (i : Nat) (g : Cell → Cell) (hg : g none = none) (r : Row) :
    cellAt i (updNth i g r) = g (cellAt i r) := by
  induction r generalizing i with
  | nil =>
    cases i with
    | zero =>
      show (none : Cell) = g none
      rw [hg]
    | succ j =>
      show (none : Cell) = g none
      rw [hg]
  | cons x xs ih =>
    cases i with
    | zero => rfl
    | succ j =>
      show cellAt j (updNth j g xs) = g (cellAt j xs)
      exact ih j

theorem cellAt_updNth_ne {i j : Nat} (hij : j ≠ i) (g : Cell → Cell) (r : Row) :
    cellAt j (updNth i g r) = cellAt j r := by
  induction r generalizing i j with
  | nil => cases i <;> rfl
  | cons x xs ih =>
    cases i with
    | zero =>
      cases j with
      | zero => exact absurd rfl hij
      | succ j' => rfl
    | succ i' =>
      cases j with
      | zero => rfl
      | succ j' =>
        show cellAt j' (updNth i' g xs) = cellAt j' xs
        exact ih (fun h => hij (by rw [h]))

theorem lookup_rename_of_ne (cols : List String) (r : Row) (a b n : String)
    (hna : n ≠ a) (hnb : n ≠ b) :
    lookupCell (cols.map (fun x => if x == a then b else x)) r n
      = lookupCell cols r n := by
  induction cols generalizing r with
  | nil => rfl
  | cons x cs ih =>
    cases r with
    | nil => rfl
    | cons y ys =>
      show (if ((if (x == a) = true then b else x) == n) = true then y
          else lookupCell (cs.map (fun x => if x == a then b else x)) ys n)
        = (if (x == n) = true then y else lookupCell cs ys n)
      by_cases hxa : (x == a) = true
      · have hxn : (x == n) = false := beq_eq_false_iff_ne.mpr
          (fun h => hna (by rw [← h]; exact beq_iff_eq.mp hxa))
        rw [hxa]
        simp only [if_true]
        rw [show (b == n) = false from beq_eq_false_iff_ne.mpr (Ne.symm hnb), hxn]
        simp only [Bool.false_eq_true, if_false]
        exact ih ys
      · rw [Bool.not_eq_true] at hxa
        rw [hxa]
        simp only [Bool.false_eq_true, if_false]
        by_cases hxn : (x == n) = true
        · rw [hxn]
          simp only [if_true]
        · rw [Bool.not_eq_true] at hxn
          rw [hxn]
          simp only [Bool.false_eq_true, if_false]
          exact ih ys

theorem contains_tail {x : String} {cs : List String}
    (h : (x :: cs).contains "Tarih" = true) (hx : (x == "Tarih") = false) :
    "Tarih" ∈ cs := by
  simp [List.contains_cons] at h
  rcases h with h | h
  · rw [← h] at hx
    simp at hx
  · exact h

theorem findIdx_of_mem {cs : List String} (h : "Tarih" ∈ cs) :
    ∃ i, cs.findIdx? (fun c => c == "Tarih") = some i := by
  rw [← Option.isSome_iff_exists, List.findIdx?_isSome]
  exact List.any_eq_true.mpr ⟨_, h, beq_self_eq_true _⟩

theorem findIdx_of_filter_val {cs : List String} {sc : String} {rest : List String}
    (h : cs.filter (fun x => x != "Tarih") = sc :: rest) :
    ∃ i, cs.findIdx? (fun x => x != "Tarih") = some i := by
  rw [← Option.isSome_iff_exists, List.findIdx?_isSome]
  have hsc : sc ∈ cs.filter (fun x => x != "Tarih") := by
    rw [h]
    exact List.mem_cons_self _ _
  obtain ⟨hm, hp⟩ := List.mem_filter.mp hsc
  exact List.any_eq_true.mpr ⟨sc, hm, hp⟩

theorem sc_ne_tarih {cs : List String} {sc : String} {rest : List String}
    (h : cs.filter (fun x => x != "Tarih") = sc :: rest) : sc ≠ "Tarih" := by
  have hsc : sc ∈ cs.filter (fun x => x != "Tarih") := by
    rw [h]
    exact List.mem_cons_self _ _
  have h2 := (List.mem_filter.mp hsc).2
  simpa using h2

theorem tarihIdx_cons_ne {x : String} {cs : List String}
    (hx : (x == "Tarih") = false) (hmem : "Tarih" ∈ cs) :
    tarihIdx (x :: cs) = tarihIdx cs + 1 := by
  obtain ⟨i, hi⟩ := findIdx_of_mem hmem
  unfold tarihIdx
  rw [List.findIdx?_cons, hx]
  simp only [Bool.false_eq_true, if_false]
  rw [List.findIdx?_succ, hi]
  rfl

theorem lookup_tarihIdx (cols : List String) (r : Row)
    (h : "Tarih" ∈ cols) :
    lookupCell cols r "Tarih" = cellAt (tarihIdx cols) r := by
  induction cols generalizing r with
  | nil => simp at h
  | cons x cs ih =>
    by_cases hx : (x == "Tarih") = true
    · have hx2 : x = "Tarih" := beq_iff_eq.mp hx
      subst hx2
      rw [tarihIdx_head]
      cases r with
      | nil => rfl
      | cons y ys =>
        show (if (("Tarih" : String) == "Tarih") = true then y
          else lookupCell cs ys "Tarih") = y
        simp
    · rw [Bool.not_eq_true] at hx
      have hcs : "Tarih" ∈ cs := by
        rcases List.mem_cons.mp h with he | hm
        · rw [he] at hx
          simp at hx
        · exact hm
      rw [tarihIdx_cons_ne hx hcs]
      cases r with
      | nil => rfl
      | cons y ys =>
        show (if (x == "Tarih") = true then y else lookupCell cs ys "Tarih")
          = cellAt (tarihIdx cs + 1) (y :: ys)
        rw [hx]
        simp only [Bool.false_eq_true, if_false]
        exact ih ys hcs

theorem firstValIdx_cons_tarih {cs : List String} {sc : String}
    {rest : List String} (h : cs.filter (fun x => x != "Tarih") = sc :: rest) :
    firstValIdx ("Tarih" :: cs) = firstValIdx cs + 1 := by
  obtain ⟨i, hi⟩ := findIdx_of_filter_val h
  unfold firstValIdx
  rw [List.findIdx?_cons]
  simp only [bne_self_eq_false, Bool.false_eq_true, if_false]
  rw [List.findIdx?_succ, hi]
  rfl

theorem lookup_first_val (cols : List String) (r : Row) (sc newName : String)
    (rest : List String)
    (hother : cols.filter (fun x => x != "Tarih") = sc :: rest)
    (hsan : newName ≠ "Tarih") :
    lookupCell (cols.map (fun x => if x == sc then newName else x)) r newName
      = cellAt (firstValIdx cols) r := by
  induction cols generalizing r rest with
  | nil => simp at hother
  | cons x cs ih =>
    by_cases hx : (x != "Tarih") = true
    · have hscx : sc = x := by
        rw [List.filter_cons_of_pos (p := fun x => x != "Tarih") hx] at hother
        exact (List.cons.injEq .. |>.mp hother).1.symm
      subst hscx
      have hvi : firstValIdx (sc :: cs) = 0 := by
        unfold firstValIdx
        rw [List.findIdx?_cons, hx]
        rfl
      rw [hvi]
      cases r with
      | nil => rfl
      | cons y ys =>
        show (if ((if (sc == sc) = true then newName else sc) == newName) = true
          then y else lookupCell (cs.map (fun x =>
            if x == sc then newName else x)) ys newName) = y
        rw [beq_self_eq_true sc]
        simp only [if_true]
        rw [beq_self_eq_true newName]
        simp only [if_true]
    · rw [Bool.not_eq_true] at hx
      have hx2 : x = "Tarih" := by
        simpa using hx
      subst hx2
      rw [List.filter_cons_of_neg (p := fun x => x != "Tarih") (by simp [hx])]
        at hother
      have hsc2 : sc ≠ "Tarih" := sc_ne_tarih hother
      rw [firstValIdx_cons_tarih hother]
      cases r with
      | nil => rfl
      | cons y ys =>
        show (if ((if (("Tarih" : String) == sc) = true then newName else "Tarih")
            == newName) = true then y else lookupCell (cs.map (fun x =>
              if x == sc then newName else x)) ys newName)
          = cellAt (firstValIdx cs + 1) (y :: ys)
        rw [show (("Tarih" : String) == sc) = false from
          beq_eq_false_iff_ne.mpr (Ne.symm hsc2)]
        simp only [Bool.false_eq_true, if_false]
        rw [show (("Tarih" : String) == newName) = false from
          beq_eq_false_iff_ne.mpr (Ne.symm hsan)]
        simp only [Bool.false_eq_true, if_false]
        exact ih ys rest hother

/-! ### Unfoldings of the normalizer -/

theorem toDatetimeTarih_cols (f : Frame) : (toDatetimeTarih f).cols = f.cols := rfl

theorem dropnaTarih_cols (f : Frame) : (dropnaTarih f).cols = f.cols := rfl

theorem renameColumns_cols (f : Frame) (a b : String) :
    (renameColumns f a b).cols = f.cols.map (fun c => if c == a then b else c) := rfl

theorem dateResolved_rows (df : Frame) : (dateResolved df).rows = df.rows := by
  unfold dateResolved
  split <;> rfl

theorem dateResolved_id {df : Frame} (h2 : df.cols.contains "DATE" = false) :
    dateResolved df = df := by
  unfold dateResolved
  rw [h2]
  simp

theorem normalize_df_empty (df : Frame) (code : String) (h : df.emptyB = true) :
    normalize_df (some df) code = none := by
  simp only [normalize_df]
  rw [h]
  simp

theorem normalize_df_no_date (df : Frame) (code : String)
    (hne : df.emptyB = false)
    (hd : (dateResolved df).cols.contains "Tarih" = false) :
    normalize_df (some df) code = none := by
  simp only [normalize_df]
  rw [hne]
  simp only [Bool.false_eq_true, if_false]
  rw [hd]
  simp

theorem normalize_df_no_value (df : Frame) (code : String)
    (hne : df.emptyB = false)
    (hd : (dateResolved df).cols.contains "Tarih" = true)
    (hov : (dateResolved df).cols.filter (fun x => x != "Tarih") = []) :
    normalize_df (some df) code = none := by
  simp only [normalize_df]
  rw [hne]
  simp only [Bool.false_eq_true, if_false]
  rw [hd]
  simp only [Bool.not_true, Bool.false_eq_true, if_false]
  rw [show (dropnaTarih (toDatetimeTarih (dateResolved df))).cols
    = (dateResolved df).cols from rfl]
  rw [hov]

theorem normalize_df_some (df : Frame) (code : String)
    (hne : df.emptyB = false)
    (hd : (dateResolved df).cols.contains "Tarih" = true)
    {sc : String} {rest : List String}
    (hother : (dateResolved df).cols.filter (fun x => x != "Tarih") = sc :: rest)
    (hsan : replaceDotUnderscore code ≠ "Tarih") :
    normalize_df (some df) code
      = some ⟨["Tarih", replaceDotUnderscore code],
          ((df.rows.map (updNth (tarihIdx (dateResolved df).cols) coerceCell)).filter
              (fun r => (cellAt (tarihIdx (dateResolved df).cols) r).isSome)).map
            (fun r => [cellAt (tarihIdx (dateResolved df).cols) r,
              cellAt (firstValIdx (dateResolved df).cols) r])⟩ := by
  have hmem : "Tarih" ∈ (dateResolved df).cols := by
    simpa [List.contains_iff_exists_mem_beq] using hd
  have hscne : sc ≠ "Tarih" := sc_ne_tarih hother
  simp only [normalize_df]
  rw [hne]
  simp only [Bool.false_eq_true, if_false]
  rw [hd]
  simp only [Bool.not_true, Bool.false_eq_true, if_false]
  rw [show (dropnaTarih (toDatetimeTarih (dateResolved df))).cols
    = (dateResolved df).cols from rfl]
  rw [hother]
  show some (selectCols (renameColumns
    (dropnaTarih (toDatetimeTarih (dateResolved df))) sc
    (replaceDotUnderscore code)) ["Tarih", replaceDotUnderscore code]) = _
  congr 1
  unfold selectCols
  have halign : alignRow (renameColumns
        (dropnaTarih (toDatetimeTarih (dateResolved df))) sc
        (replaceDotUnderscore code)).cols ["Tarih", replaceDotUnderscore code]
      = fun r => [cellAt (tarihIdx (dateResolved df).cols) r,
          cellAt (firstValIdx (dateResolved df).cols) r] := by
    funext r
    show [lookupCell ((dateResolved df).cols.map
        (fun c => if c == sc then replaceDotUnderscore code else c)) r "Tarih",
      lookupCell ((dateResolved df).cols.map
        (fun c => if c == sc then replaceDotUnderscore code else c)) r
        (replaceDotUnderscore code)] = _
    rw [lookup_rename_of_ne _ r sc (replaceDotUnderscore code) "Tarih"
        (Ne.symm hscne) (Ne.symm hsan),
      lookup_tarihIdx _ r hmem,
      lookup_first_val _ r sc (replaceDotUnderscore code) rest hother hsan]
  rw [halign]
  show Frame.mk ["Tarih", replaceDotUnderscore code]
      ((((dateResolved df).rows.map (updNth (tarihIdx (dateResolved df).cols)
        coerceCell)).filter
          (fun r => (cellAt (tarihIdx (dateResolved df).cols) r).isSome)).map _)
    = _
  rw [dateResolved_rows]

theorem tarihIdx_ne_firstValIdx (cols : List String)
    (hd : cols.contains "Tarih" = true)
    {sc : String} {rest : List String}
    (hother : cols.filter (fun x => x != "Tarih") = sc :: rest) :
    tarihIdx cols ≠ firstValIdx cols := by
  cases cols with
  | nil => simp at hother
  | cons x cs =>
    by_cases hx : (x == "Tarih") = true
    · have hx2 : x = "Tarih" := beq_iff_eq.mp hx
      subst hx2
      rw [tarihIdx_head]
      rw [List.filter_cons_of_neg (p := fun x => x != "Tarih") (by simp)] at hother
      rw [firstValIdx_cons_tarih hother]
      exact fun h => Nat.succ_ne_zero _ h.symm
    · rw [Bool.not_eq_true] at hx
      have hmem : "Tarih" ∈ cs := contains_tail hd hx
      rw [tarihIdx_cons_ne hx hmem]
      have hvi : firstValIdx (x :: cs) = 0 := by
        unfold firstValIdx
        rw [List.findIdx?_cons]
        rw [show (x != "Tarih") = true from by simp [bne, hx]]
        rfl
      rw [hvi]
      exact Nat.succ_ne_zero _

theorem pipeline_filterMap (L : List Row) (ti vi : Nat) (hvt : vi ≠ ti) :
    ((L.map (updNth ti coerceCell)).filter
        (fun r => (cellAt ti r).isSome)).map
      (fun r => [cellAt ti r, cellAt vi r])
    = L.filterMap (fun r =>
        match coerceCell (cellAt ti r) with
        | some cv => some [some cv, cellAt vi r]
        | none => none) := by
  induction L with
  | nil => rfl
  | cons r rs ih =>
    rw [List.map_cons, List.filter_cons, List.filterMap_cons]
    have hc0 : cellAt ti (updNth ti coerceCell r) = coerceCell (cellAt ti r) :=
      cellAt_updNth ti coerceCell rfl r
    cases hc : coerceCell (cellAt ti r) with
    | none =>
      rw [show (cellAt ti (updNth ti coerceCell r)).isSome = false from by
        rw [hc0, hc]; rfl]
      simp only [Bool.false_eq_true, if_false]
      rw [ih]
    | some cv =>
      rw [show (cellAt ti (updNth ti coerceCell r)).isSome = true from by
        rw [hc0, hc]; rfl]
      simp only [if_true, List.map_cons]
      rw [ih, hc0, hc, cellAt_updNth_ne hvt coerceCell r]

theorem pipeline_filterThenMap (L : List Row) (ti vi : Nat) (hvt : vi ≠ ti) :
    ((L.map (updNth ti coerceCell)).filter
        (fun r => (cellAt ti r).isSome)).map
      (fun r => [cellAt ti r, cellAt vi r])
    = (L.filter (fun r => (coerceCell (cellAt ti r)).isSome)).map
        (fun r => [coerceCell (cellAt ti r), cellAt vi r]) := by
  induction L with
  | nil => rfl
  | cons r rs ih =>
    rw [List.map_cons, List.filter_cons, List.filter_cons]
    have hc0 : cellAt ti (updNth ti coerceCell r) = coerceCell (cellAt ti r) :=
      cellAt_updNth ti coerceCell rfl r
    rw [hc0]
    cases hc : (coerceCell (cellAt ti r)).isSome with
    | false =>
      simp only [Bool.false_eq_true, if_false]
      exact ih
    | true =>
      simp only [if_true, List.map_cons]
      rw [ih, hc0, cellAt_updNth_ne hvt coerceCell r]

theorem normalize_df_branch (df : Frame) (code : String)
    (hne : df.emptyB = false)
    (hd : (dateResolved df).cols.contains "Tarih" = true)
    {sc : String} {rest : List String}
    (hother : (dateResolved df).cols.filter (fun x => x != "Tarih") = sc :: rest) :
    normalize_df (some df) code
      = some (selectCols (renameColumns
          (dropnaTarih (toDatetimeTarih (dateResolved df))) sc
          (replaceDotUnderscore code)) ["Tarih", replaceDotUnderscore code]) := by
  simp only [normalize_df]
  rw [hne]
  simp only [Bool.false_eq_true, if_false]
  rw [hd]
  simp only [Bool.not_true, Bool.false_eq_true, if_false]
  rw [show (dropnaTarih (toDatetimeTarih (dateResolved df))).cols
    = (dateResolved df).cols from rfl]
  rw [hother]

theorem normalize_df_some_inv {df : Frame} {code : String} {g : Frame}
    (hg : normalize_df (some df) code = some g) :
    df.emptyB = false ∧ (dateResolved df).cols.contains "Tarih" = true ∧
      ∃ sc rest, (dateResolved df).cols.filter (fun x => x != "Tarih")
        = sc :: rest := by
  by_cases h1 : df.emptyB = true
  · rw [normalize_df_empty df code h1] at hg
    exact absurd hg (by simp)
  · rw [Bool.not_eq_true] at h1
    by_cases h2 : (dateResolved df).cols.contains "Tarih" = true
    · cases h3 : (dateResolved df).cols.filter (fun x => x != "Tarih") with
      | nil =>
        rw [normalize_df_no_value df code h1 h2 h3] at hg
        exact absurd hg (by simp)
      | cons sc rest => exact ⟨h1, h2, sc, rest, rfl⟩
    · rw [Bool.not_eq_true] at h2
      rw [normalize_df_no_date df code h1 h2] at hg
      exact absurd hg (by simp)

/-! ### Concrete raw payloads for the normalizer examples -/

/-- A raw payload with the primary date column, two candidate value columns,
and one row whose date does not parse. -/
def exRaw : Frame :=
  ⟨["Tarih", "A", "B"],
   [[some (.str "01-01-2021"), some (.str "1.5"), some (.str "x")],
    [some (.str "bad"), some (.str "2.0"), some (.str "y")],
    [some (.str "03-01-2021"), some (.str "2.5"), some (.str "z")]]⟩

/-- A raw payload using the fallback date column label. -/
def exRawDATE : Frame :=
  ⟨["DATE", "A"], [[some (.str "01-01-2021"), some (.str "1.5")]]⟩

/-- A raw payload with no recognizable date column. -/
def exRawNoDate : Frame :=
  ⟨["X", "A"], [[some (.str "a"), some (.str "b")]]⟩

/-- A raw payload with a date column none of whose cells parse. -/
def exRawBadDates : Frame :=
  ⟨["Tarih", "A"], [[some (.str "nope"), some (.str "1")],
                    [none, some (.str "2")]]⟩

/-! ### Claim theorems for the normalizer -/

/-- C6: a non-empty raw payload whose columns include neither the primary
date label `Tarih` nor the fallback `DATE` normalizes to no output, and
feeding that result to the store performs no write: the condition is
recoverable per series, not a thrown fault. -/
theorem C6_missing_date_rejected (df : Frame) (code : String)
    (hne : df.emptyB = false)
    (h1 : df.cols.contains "Tarih" = false)
    (h2 : df.cols.contains "DATE" = false) :
    normalize_df (some df) code = none ∧
      ∀ file, append_or_create_csv file (normalize_df (some df) code)
        = (file, .noNewData) := by
  have hnone : normalize_df (some df) code = none :=
    normalize_df_no_date df code hne (by rw [dateResolved_id h2]; exact h1)
  exact ⟨hnone, fun file => by rw [hnone]; exact append_noneIncoming file⟩

theorem C6_missing_date_rejected_witness :
    (exRawNoDate.emptyB = false ∧
      exRawNoDate.cols.contains "Tarih" = false ∧
      exRawNoDate.cols.contains "DATE" = false) ∧
    normalize_df (some exRawNoDate) "TP.C" = none ∧
    append_or_create_csv (some exFile) (normalize_df (some exRawNoDate) "TP.C")
      = (some exFile, .noNewData) :=
  ⟨⟨by decide, by decide, by decide⟩,
    (C6_missing_date_rejected exRawNoDate "TP.C" (by decide) (by decide)
      (by decide)).1,
    (C6_missing_date_rejected exRawNoDate "TP.C" (by decide) (by decide)
      (by decide)).2 (some exFile)⟩

/-- C7: a raw payload lacking the primary date label `Tarih` but holding a
column `DATE` normalizes exactly as the identical payload with that column
already renamed to `Tarih`: the fallback is renamed and processed
identically. -/
theorem C7_fallback_date_column (df : Frame) (code : String)
    (h1 : df.cols.contains "Tarih" = false)
    (h2 : df.cols.contains "DATE" = true) :
    normalize_df (some df) code
      = normalize_df (some (renameColumns df "DATE" "Tarih")) code := by
  have hre : (renameColumns df "DATE" "Tarih").emptyB = df.emptyB := by
    rcases df with ⟨cols, rows⟩
    unfold Frame.emptyB renameColumns
    cases cols <;> rfl
  have hd1 : dateResolved df = renameColumns df "DATE" "Tarih" := by
    unfold dateResolved
    rw [h1, h2]
    simp
  have hd2 : dateResolved (renameColumns df "DATE" "Tarih")
      = renameColumns df "DATE" "Tarih" := by
    have hc : (renameColumns df "DATE" "Tarih").cols.contains "Tarih" = true := by
      rw [renameColumns_cols]
      simp only [List.contains_iff_exists_mem_beq] at h2 ⊢
      obtain ⟨a, ha, hb⟩ := h2
      have ha2 : a = "DATE" := (beq_iff_eq.mp hb).symm
      subst ha2
      exact ⟨"Tarih", List.mem_map.mpr ⟨"DATE", ha, by simp⟩, beq_self_eq_true _⟩
    unfold dateResolved
    rw [hc]
    simp
  simp only [normalize_df]
  rw [hre, hd1, hd2]

theorem C7_fallback_date_column_witness :
    (exRawDATE.cols.contains "Tarih" = false ∧
      exRawDATE.cols.contains "DATE" = true) ∧
    normalize_df (some exRawDATE) "TP.X"
      = normalize_df (some (renameColumns exRawDATE "DATE" "Tarih")) "TP.X" :=
  ⟨⟨by decide, by decide⟩,
    C7_fallback_date_column exRawDATE "TP.X" (by decide) (by decide)⟩

/-- C8: on a non-empty raw payload whose resolved columns include the date
column, the normalizer fails (returns none) when no column other than the
date column remains, and otherwise returns exactly a two-column record set
named `Tarih` and `code` with periods replaced by underscores, whose value
cells come from the first remaining column in original left-to-right order
(provided the sanitized code does not collide with the reserved date
label). -/
theorem C8_value_column_selection (df : Frame) (code : String)
    (hne : df.emptyB = false)
    (hd : (dateResolved df).cols.contains "Tarih" = true)
    (hsan : replaceDotUnderscore code ≠ "Tarih") :
    ((dateResolved df).cols.filter (fun x => x != "Tarih") = [] →
      normalize_df (some df) code = none) ∧
    ∀ sc rest,
      (dateResolved df).cols.filter (fun x => x != "Tarih") = sc :: rest →
      ∃ g, normalize_df (some df) code = some g ∧
        g.cols = ["Tarih", replaceDotUnderscore code] ∧
        g.rows = df.rows.filterMap (fun r =>
          match coerceCell (cellAt (tarihIdx (dateResolved df).cols) r) with
          | some cv =>
            some [some cv, cellAt (firstValIdx (dateResolved df).cols) r]
          | none => none) := by
  constructor
  · intro hov
    exact normalize_df_no_value df code hne hd hov
  · intro sc rest hother
    refine ⟨_, normalize_df_some df code hne hd hother hsan, rfl, ?_⟩
    exact pipeline_filterMap df.rows _ _
      (Ne.symm (tarihIdx_ne_firstValIdx _ hd hother))

theorem C8_value_column_selection_witness :
    (exRaw.emptyB = false ∧
      (dateResolved exRaw).cols.contains "Tarih" = true ∧
      replaceDotUnderscore "TP.Q" ≠ "Tarih" ∧
      (dateResolved exRaw).cols.filter (fun x => x != "Tarih") = ["A", "B"]) ∧
    ∃ g, normalize_df (some exRaw) "TP.Q" = some g ∧
      g.cols = ["Tarih", replaceDotUnderscore "TP.Q"] ∧
      g.rows = exRaw.rows.filterMap (fun r =>
        match coerceCell (cellAt (tarihIdx (dateResolved exRaw).cols) r) with
        | some cv =>
          some [some cv, cellAt (firstValIdx (dateResolved exRaw).cols) r]
        | none => none) :=
  ⟨⟨by decide, by decide, by decide, by decide⟩,
    (C8_value_column_selection exRaw "TP.Q" (by decide) (by decide)
      (by decide)).2 "A" ["B"] (by decide)⟩

/-- C9: a non-empty raw payload with a date column and at least one value
column, none of whose rows carries a parseable date, normalizes to a record
set with zero rows (not to none), and merging that empty result is the
empty no-op branch: the store is unmodified. -/
theorem C9_all_rows_unparseable (df : Frame) (code : String)
    (hne : df.emptyB = false)
    (hd : (dateResolved df).cols.contains "Tarih" = true)
    (sc : String) (rest : List String)
    (hother : (dateResolved df).cols.filter (fun x => x != "Tarih") = sc :: rest)
    (hnoparse : ∀ r ∈ df.rows,
      coerceCell (cellAt (tarihIdx (dateResolved df).cols) r) = none) :
    ∃ g, normalize_df (some df) code = some g ∧ g.rows = [] ∧
      ∀ file, append_or_create_csv file (normalize_df (some df) code)
        = (file, .noNewData) := by
  have hnorm := normalize_df_branch df code hne hd hother
  have h3 : ((df.rows.map (updNth (tarihIdx (dateResolved df).cols)
      coerceCell)).filter
        (fun r => (cellAt (tarihIdx (dateResolved df).cols) r).isSome)) = [] := by
    rw [List.filter_eq_nil_iff]
    intro r hr
    obtain ⟨r0, hr0, rfl⟩ := List.mem_map.mp hr
    rw [cellAt_updNth _ coerceCell rfl, hnoparse r0 hr0]
    simp
  have hrows : (selectCols (renameColumns
      (dropnaTarih (toDatetimeTarih (dateResolved df))) sc
      (replaceDotUnderscore code)) ["Tarih", replaceDotUnderscore code]).rows
      = [] := by
    show (((dateResolved df).rows.map (updNth (tarihIdx (dateResolved df).cols)
      coerceCell)).filter
        (fun r => (cellAt (tarihIdx (dateResolved df).cols) r).isSome)).map _
      = []
    rw [dateResolved_rows, h3]
    rfl
  refine ⟨_, hnorm, hrows, fun file => ?_⟩
  rw [hnorm]
  refine append_emptyIncoming file _ ?_
  unfold Frame.emptyB
  rw [hrows]
  rfl

theorem C9_all_rows_unparseable_witness :
    (exRawBadDates.emptyB = false ∧
      (dateResolved exRawBadDates).cols.contains "Tarih" = true ∧
      (dateResolved exRawBadDates).cols.filter (fun x => x != "Tarih") = ["A"] ∧
      (∀ r ∈ exRawBadDates.rows,
        coerceCell (cellAt (tarihIdx (dateResolved exRawBadDates).cols) r)
          = none)) ∧
    ∃ g, normalize_df (some exRawBadDates) "TP.Z" = some g ∧ g.rows = [] ∧
      ∀ file, append_or_create_csv file (normalize_df (some exRawBadDates) "TP.Z")
        = (file, .noNewData) :=
  ⟨⟨by decide, by decide, by decide, by decide⟩,
    C9_all_rows_unparseable exRawBadDates "TP.Z" (by decide) (by decide)
      "A" [] (by decide) (by decide)⟩

/-- C10: whenever the normalizer accepts a payload, the rows of the result
are exactly the input rows whose date cell parses, in the same relative
order as in the input (each kept row holding its parsed date and the cell
of the first non-date column): unparseable-date rows are dropped but the
survivors are never reordered. -/
theorem C10_order_preserved (df g : Frame) (code : String)
    (hsan : replaceDotUnderscore code ≠ "Tarih")
    (hg : normalize_df (some df) code = some g) :
    g.rows = (df.rows.filter (fun r =>
        (coerceCell (cellAt (tarihIdx (dateResolved df).cols) r)).isSome)).map
      (fun r => [coerceCell (cellAt (tarihIdx (dateResolved df).cols) r),
        cellAt (firstValIdx (dateResolved df).cols) r]) := by
  obtain ⟨h1, h2, sc, rest, h3⟩ := normalize_df_some_inv hg
  rw [normalize_df_some df code h1 h2 h3 hsan] at hg
  injection hg with hg
  subst hg
  exact pipeline_filterThenMap df.rows _ _
    (Ne.symm (tarihIdx_ne_firstValIdx _ h2 h3))

theorem C10_order_preserved_witness :
    (replaceDotUnderscore "TP.Q" ≠ "Tarih" ∧
      normalize_df (some exRaw) "TP.Q"
        = some ⟨["Tarih", "TP_Q"],
            [[some (.date ⟨2021, 1, 1⟩), some (.str "1.5")],
             [some (.date ⟨2021, 1, 3⟩), some (.str "2.5")]]⟩) ∧
    (⟨["Tarih", "TP_Q"],
        [[some (.date ⟨2021, 1, 1⟩), some (.str "1.5")],
         [some (.date ⟨2021, 1, 3⟩), some (.str "2.5")]]⟩ : Frame).rows
      = (exRaw.rows.filter (fun r =>
          (coerceCell (cellAt (tarihIdx (dateResolved exRaw).cols) r)).isSome)).map
        (fun r => [coerceCell (cellAt (tarihIdx (dateResolved exRaw).cols) r),
          cellAt (firstValIdx (dateResolved exRaw).cols) r]) :=
  ⟨⟨by decide, by decide⟩,
    C10_order_preserved exRaw
      ⟨["Tarih", "TP_Q"],
        [[some (.date ⟨2021, 1, 1⟩), some (.str "1.5")],
         [some (.date ⟨2021, 1, 3⟩), some (.str "2.5")]]⟩ "TP.Q"
      (by decide) (by decide)⟩
